import Mathlib

/-!
Verification development for the superagent-work tracker (src/work.ts).

The core under study is the dual-persistence layer of `src/work.ts`:
an embedded relational store (SQLite table `work`) that is re-exported in
full to a JSONL interchange file after every mutation (`exportToJsonl`),
reloaded wholesale by `import`, plus the dependency engine (`ready` /
`blocked`), the ID allocator (`nextId`) and the mutating commands.

The JSON machinery below models `JSON.stringify` / `JSON.parse` as used by
the tool: `stringify` of a record emits keys in insertion order, no extra
whitespace, integer numerals, and the standard string escapes; the parser
here accepts exactly that canonical grammar (`JSON.parse` accepts a
superset — insignificant whitespace, floats, duplicate keys — which the
tool never produces and the claims never exercise).  Strings are modelled
as sequences of unicode scalar values (Lean `Char`), the same model Lean's
`String` uses.
-/

/-! ## Characters, digits, hexadecimal -/

/-- Whitespace recognised by `String.prototype.trim` / SQLite `CAST`
(restricted to the four common ASCII whitespace characters). -/
def isWsChar (c : Char) : Bool :=
  c = ' ' || c = '\t' || c = '\n' || c = '\r'

/-- Decimal digit test, as in the lexical grammar of JSON numbers. -/
def isDigitChar (c : Char) : Bool :=
  '0' ≤ c && c ≤ '9'

/-- The decimal digit character for `n < 10`. -/
def digitChar (n : Nat) : Char := Char.ofNat (48 + n)

/-- Numeric value of a decimal digit character. -/
def digitVal (c : Char) : Nat := c.toNat - 48

/-- Value of a list of decimal digit characters, most significant first. -/
def digitsVal (ds : List Char) : Nat :=
  ds.foldl (fun a c => a * 10 + digitVal c) 0

/-- Lowercase hexadecimal digit character for `n < 16`
(`JSON.stringify` emits lowercase `\u00xx` escapes). -/
def hexChar (n : Nat) : Char :=
  if n < 10 then Char.ofNat (48 + n) else Char.ofNat (87 + n)

/-- Value of a hexadecimal digit character, `none` if not a hex digit. -/
def hexVal (c : Char) : Option Nat :=
  if '0' ≤ c && c ≤ '9' then some (c.toNat - 48)
  else if 'a' ≤ c && c ≤ 'f' then some (c.toNat - 87)
  else if 'A' ≤ c && c ≤ 'F' then some (c.toNat - 55)
  else none

/-- Decimal digits of `n`, most significant first (`String(n)` for natural
`n`); the fuel argument only drives the recursion. -/
def natCharsAux : Nat → Nat → List Char
  | 0, _ => []
  | fuel + 1, n =>
    if n < 10 then [digitChar n]
    else natCharsAux fuel (n / 10) ++ [digitChar (n % 10)]

/-- Decimal rendering of a natural number, as produced by JS `String(n)`. -/
def natChars (n : Nat) : List Char := natCharsAux (n + 1) n

/-- Decimal rendering of an integer, as produced by JS `String(n)`. -/
def intChars (n : Int) : List Char :=
  if n < 0 then '-' :: natChars (-n).toNat else natChars n.toNat

/-! ## JSON string escaping (`JSON.stringify` quoting) -/

/-- Escape of a single character inside a JSON string literal, exactly the
set `JSON.stringify` uses: `"`, `\`, the five named control escapes, and
`\u00xx` for the remaining control characters. -/
def escChar (c : Char) : List Char :=
  if c = '"' then ['\\', '"']
  else if c = '\\' then ['\\', '\\']
  else if c = '\n' then ['\\', 'n']
  else if c = '\r' then ['\\', 'r']
  else if c = '\t' then ['\\', 't']
  else if c = Char.ofNat 8 then ['\\', 'b']
  else if c = Char.ofNat 12 then ['\\', 'f']
  else if c.toNat < 32 then
    ['\\', 'u', '0', '0', hexChar (c.toNat / 16), hexChar (c.toNat % 16)]
  else [c]

/-- Escape a whole string body. -/
def escapeChars : List Char → List Char
  | [] => []
  | c :: cs => escChar c ++ escapeChars cs

/-- Parse one escape sequence after a backslash. -/
def parseEscape : List Char → Option (Char × List Char)
  | [] => none
  | c :: rest =>
    if c = '"' then some ('"', rest)
    else if c = '\\' then some ('\\', rest)
    else if c = '/' then some ('/', rest)
    else if c = 'n' then some ('\n', rest)
    else if c = 'r' then some ('\r', rest)
    else if c = 't' then some ('\t', rest)
    else if c = 'b' then some (Char.ofNat 8, rest)
    else if c = 'f' then some (Char.ofNat 12, rest)
    else if c = 'u' then
      match rest with
      | h1 :: h2 :: h3 :: h4 :: rest' =>
        match hexVal h1, hexVal h2, hexVal h3, hexVal h4 with
        | some a, some b, some c', some d =>
          some (Char.ofNat (((a * 16 + b) * 16 + c') * 16 + d), rest')
        | _, _, _, _ => none
      | _ => none
    else none

/-- Parse the body of a JSON string literal up to (and consuming) the
closing quote; returns the decoded characters and the remaining input.
The fuel is an upper bound on the number of characters decoded. -/
def parseStrBody : Nat → List Char → Option (List Char × List Char)
  | 0, _ => none
  | _ + 1, [] => none
  | fuel + 1, c :: rest =>
    if c = '"' then some ([], rest)
    else if c = '\\' then
      match parseEscape rest with
      | some (e, rest') =>
        match parseStrBody fuel rest' with
        | some (s, r) => some (e :: s, r)
        | none => none
      | none => none
    else
      match parseStrBody fuel rest with
      | some (s, r) => some (c :: s, r)
      | none => none

/-! ## JSON values, rendering, parsing -/

/-- JSON values as produced/consumed by the tool: object keys keep their
textual order (JS objects preserve insertion order), numbers are integers
(every number the tool writes is one). -/
inductive Json where
  | null : Json
  | bool (b : Bool) : Json
  | num (n : Int) : Json
  | str (s : String) : Json
  | arr (xs : List Json) : Json
  | obj (fields : List (String × Json)) : Json
deriving Repr, Inhabited

-- Render a JSON value the way `JSON.stringify` does: no whitespace,
-- keys in order, strings quoted with `escChar`.
mutual
def renderJson : Json → List Char
  | .num n => intChars n
  | .str s => '"' :: (escapeChars s.data ++ ['"'])
  | .bool true => ['t', 'r', 'u', 'e']
  | .bool false => ['f', 'a', 'l', 's', 'e']
  | .null => ['n', 'u', 'l', 'l']
  | .arr [] => ['[', ']']
  | .arr (x :: xs) => '[' :: (renderJson x ++ renderArrTail xs)
  | .obj [] => ['\x7b', '\x7d']
  | .obj (f :: fs) => '\x7b' :: (renderField f ++ renderObjTail fs)
def renderArrTail : List Json → List Char
  | [] => [']']
  | x :: xs => ',' :: (renderJson x ++ renderArrTail xs)
def renderField : String × Json → List Char
  | (k, v) => '"' :: (escapeChars k.data ++ ['"', ':'] ++ renderJson v)
def renderObjTail : List (String × Json) → List Char
  | [] => ['\x7d']
  | f :: fs => ',' :: (renderField f ++ renderObjTail fs)
end

/-- Parse an integer JSON numeral (optional minus, decimal digits). -/
def parseNatTok (input : List Char) : Option (Nat × List Char) :=
  let ds := input.takeWhile isDigitChar
  if ds.isEmpty then none
  else some (digitsVal ds, input.dropWhile isDigitChar)

/-- Parse a JSON number token. -/
def parseIntTok : List Char → Option (Int × List Char)
  | [] => none
  | c :: rest =>
    if c = '-' then (parseNatTok rest).map fun p => (-(p.1 : Int), p.2)
    else (parseNatTok (c :: rest)).map fun p => ((p.1 : Int), p.2)

-- Recursive-descent parser for the canonical JSON grammar rendered by
-- `renderJson`.  The fuel bounds the nesting/width of the value; string
-- bodies receive their own length-derived fuel.
mutual
def parseJson : Nat → List Char → Option (Json × List Char)
  | 0, _ => none
  | fuel + 1, input =>
    match input with
    | [] => none
    | c :: rest =>
      if c = '"' then
        match parseStrBody (rest.length + 1) rest with
        | some (s, r) => some (.str ⟨s⟩, r)
        | none => none
      else if c = '[' then
        if rest.head? = some ']' then some (.arr [], rest.tail)
        else
          match parseJson fuel rest with
          | some (x, r) =>
            match parseArrTail fuel r with
            | some (xs, r') => some (.arr (x :: xs), r')
            | none => none
          | none => none
      else if c = '\x7b' then
        if rest.head? = some '\x7d' then some (.obj [], rest.tail)
        else
          match parseField fuel rest with
          | some (f, r) =>
            match parseObjTail fuel r with
            | some (fs, r') => some (.obj (f :: fs), r')
            | none => none
          | none => none
      else if c = 'n' then
        match rest with
        | 'u' :: 'l' :: 'l' :: r => some (.null, r)
        | _ => none
      else if c = 't' then
        match rest with
        | 'r' :: 'u' :: 'e' :: r => some (.bool true, r)
        | _ => none
      else if c = 'f' then
        match rest with
        | 'a' :: 'l' :: 's' :: 'e' :: r => some (.bool false, r)
        | _ => none
      else
        (parseIntTok (c :: rest)).map fun p => (.num p.1, p.2)
def parseField : Nat → List Char → Option ((String × Json) × List Char)
  | 0, _ => none
  | fuel + 1, input =>
    match input with
    | '"' :: rest =>
      match parseStrBody (rest.length + 1) rest with
      | some (k, ':' :: r) =>
        match parseJson fuel r with
        | some (v, r') => some ((⟨k⟩, v), r')
        | none => none
      | _ => none
    | _ => none
def parseArrTail : Nat → List Char → Option (List Json × List Char)
  | 0, _ => none
  | fuel + 1, input =>
    match input with
    | ']' :: rest => some ([], rest)
    | ',' :: rest =>
      match parseJson fuel rest with
      | some (x, r) =>
        match parseArrTail fuel r with
        | some (xs, r') => some (x :: xs, r')
        | none => none
      | none => none
    | _ => none
def parseObjTail : Nat → List Char → Option (List (String × Json) × List Char)
  | 0, _ => none
  | fuel + 1, input =>
    match input with
    | '\x7d' :: rest => some ([], rest)
    | ',' :: rest =>
      match parseField fuel rest with
      | some (f, r) =>
        match parseObjTail fuel r with
        | some (fs, r') => some (f :: fs, r')
        | none => none
      | none => none
    | _ => none
end

-- Fuel sufficient for `parseJson` to consume the rendering of a value.
mutual
def jsize : Json → Nat
  | .null => 1
  | .bool _ => 1
  | .num _ => 1
  | .str _ => 1
  | .arr [] => 1
  | .arr (x :: xs) => 1 + jsize x + jlistSize xs
  | .obj [] => 1
  | .obj (f :: fs) => 1 + jfieldSize f + jflistSize fs
def jfieldSize : String × Json → Nat
  | (_, v) => 1 + jsize v
def jlistSize : List Json → Nat
  | [] => 1
  | x :: xs => 1 + jsize x + jlistSize xs
def jflistSize : List (String × Json) → Nat
  | [] => 1
  | f :: fs => 1 + jfieldSize f + jflistSize fs
end

/-! ## Round-trip lemmas: digits and numerals -/

/-- The ten decimal digit characters. -/
def digitChars : List Char := ['0', '1', '2', '3', '4', '5', '6', '7', '8', '9']

/-- Head test for a character predicate on a list. -/
def headSat (p : Char → Bool) : List Char → Bool
  | [] => false
  | c :: _ => p c

theorem digitChar_mem (k : Nat) (hk : k < 10) : digitChar k ∈ digitChars := by
  revert hk; revert k; decide

theorem digitVal_digitChar (k : Nat) (hk : k < 10) : digitVal (digitChar k) = k := by
  revert hk; revert k; decide

theorem isDigitChar_of_mem (c : Char) (h : c ∈ digitChars) : isDigitChar c = true := by
  fin_cases h <;> decide

theorem digitsVal_append_one (ds : List Char) (d : Char) :
    digitsVal (ds ++ [d]) = digitsVal ds * 10 + digitVal d := by
  simp [digitsVal, List.foldl_append]

theorem natCharsAux_spec (fuel : Nat) : ∀ n : Nat, n < fuel →
    natCharsAux fuel n ≠ [] ∧ (∀ c ∈ natCharsAux fuel n, c ∈ digitChars) ∧
      digitsVal (natCharsAux fuel n) = n := by
  induction fuel with
  | zero => intro n hn; omega
  | succ f ih =>
    intro n hn
    by_cases h10 : n < 10
    · refine ⟨by simp [natCharsAux, h10], ?_, ?_⟩
      · intro c hc
        simp [natCharsAux, h10] at hc
        exact hc ▸ digitChar_mem n h10
      · simp [natCharsAux, h10, digitsVal, digitVal_digitChar n h10]
    · have hdiv : n / 10 < f := by
        have h1 : n / 10 < n := Nat.div_lt_self (by omega) (by omega)
        omega
      obtain ⟨hne, hmem, hval⟩ := ih (n / 10) hdiv
      refine ⟨by simp [natCharsAux, h10], ?_, ?_⟩
      · intro c hc
        simp [natCharsAux, h10] at hc
        rcases hc with hc | hc
        · exact hmem c hc
        · exact hc ▸ digitChar_mem (n % 10) (Nat.mod_lt n (by omega))
      · rw [natCharsAux, if_neg h10, digitsVal_append_one, hval,
          digitVal_digitChar (n % 10) (Nat.mod_lt n (by omega))]
        omega

theorem natChars_spec (n : Nat) :
    natChars n ≠ [] ∧ (∀ c ∈ natChars n, c ∈ digitChars) ∧ digitsVal (natChars n) = n :=
  natCharsAux_spec (n + 1) n (Nat.lt_succ_self n)

theorem takeWhile_all_append (p : Char → Bool) (ds rest : List Char)
    (h1 : ∀ c ∈ ds, p c = true) (h2 : headSat p rest = false) :
    (ds ++ rest).takeWhile p = ds ∧ (ds ++ rest).dropWhile p = rest := by
  induction ds with
  | nil =>
    cases rest with
    | nil => simp
    | cons c r =>
      simp only [headSat] at h2
      simp [List.takeWhile, List.dropWhile, h2]
  | cons d ds ih =>
    have hd : p d = true := h1 d (by simp)
    obtain ⟨ht, hdr⟩ := ih (fun c hc => h1 c (by simp [hc]))
    simp [List.takeWhile, List.dropWhile, hd, ht, hdr]

theorem parseNatTok_natChars (n : Nat) (rest : List Char)
    (h : headSat isDigitChar rest = false) :
    parseNatTok (natChars n ++ rest) = some (n, rest) := by
  obtain ⟨hne, hmem, hval⟩ := natChars_spec n
  obtain ⟨ht, hd⟩ := takeWhile_all_append isDigitChar (natChars n) rest
    (fun c hc => isDigitChar_of_mem c (hmem c hc)) h
  simp [parseNatTok, ht, hd, hne, hval, List.isEmpty_iff]

theorem mem_digitChars_ne (c : Char) (h : c ∈ digitChars) :
    ((c = '-') = False) ∧ ((c = '"') = False) ∧ ((c = '[') = False) ∧
      ((c = '\x7b') = False) ∧ ((c = 'n') = False) ∧ ((c = 't') = False) ∧
      ((c = 'f') = False) ∧ ((c = ']') = False) := by
  fin_cases h <;> refine ⟨?_, ?_, ?_, ?_, ?_, ?_, ?_, ?_⟩ <;> simp

theorem parseIntTok_intChars (n : Int) (rest : List Char)
    (h : headSat isDigitChar rest = false) :
    parseIntTok (intChars n ++ rest) = some (n, rest) := by
  by_cases hn : n < 0
  · have : intChars n = '-' :: natChars (-n).toNat := by simp [intChars, hn]
    rw [this]
    simp only [List.cons_append, parseIntTok, if_pos rfl,
      parseNatTok_natChars _ _ h, Option.map_some']
    have : ((-n).toNat : Int) = -n := Int.toNat_of_nonneg (by omega)
    simp [this]
  · have hi : intChars n = natChars n.toNat := by simp [intChars, hn]
    obtain ⟨hne, hmem, _⟩ := natChars_spec n.toNat
    obtain ⟨c, cs, hcs⟩ : ∃ c cs, natChars n.toNat = c :: cs := by
      cases hh : natChars n.toNat with
      | nil => exact absurd hh hne
      | cons c cs => exact ⟨c, cs, rfl⟩
    have hc : c ∈ digitChars := hmem c (by rw [hcs]; simp)
    have hnotdash : ¬(c = '-') := by simp [(mem_digitChars_ne c hc).1]
    rw [hi, hcs]
    simp only [List.cons_append, parseIntTok, if_neg hnotdash]
    rw [← List.cons_append, ← hcs, parseNatTok_natChars _ _ h]
    simp only [Option.map_some']
    congr 1
    have : (n.toNat : Int) = n := Int.toNat_of_nonneg (by omega)
    simp [this]

/-! ## Round-trip lemmas: string escapes -/

theorem hexVal_hexChar (k : Nat) (hk : k < 16) : hexVal (hexChar k) = some k := by
  revert hk; revert k; decide

theorem escChar_spec (c : Char) (rest : List Char) :
    (∃ t, escChar c = '\\' :: t ∧ parseEscape (t ++ rest) = some (c, rest)) ∨
    (escChar c = [c] ∧ (c = '"') = False ∧ (c = '\\') = False) := by
  by_cases h1 : c = '"'
  · subst h1; exact Or.inl ⟨['"'], rfl, rfl⟩
  · by_cases h2 : c = '\\'
    · subst h2; exact Or.inl ⟨['\\'], by simp [escChar, h1], rfl⟩
    · by_cases h3 : c = '\n'
      · subst h3; exact Or.inl ⟨['n'], by simp [escChar, h1, h2], rfl⟩
      · by_cases h4 : c = '\r'
        · subst h4; exact Or.inl ⟨['r'], by simp [escChar, h1, h2, h3], rfl⟩
        · by_cases h5 : c = '\t'
          · subst h5; exact Or.inl ⟨['t'], by simp [escChar, h1, h2, h3, h4], rfl⟩
          · by_cases h6 : c = Char.ofNat 8
            · subst h6
              exact Or.inl ⟨['b'], by simp [escChar, h1, h2, h3, h4, h5], rfl⟩
            · by_cases h7 : c = Char.ofNat 12
              · subst h7
                exact Or.inl ⟨['f'], by simp [escChar, h1, h2, h3, h4, h5, h6], rfl⟩
              · by_cases h8 : c.toNat < 32
                · refine Or.inl ⟨['u', '0', '0', hexChar (c.toNat / 16),
                    hexChar (c.toNat % 16)], by simp [escChar, h1, h2, h3, h4, h5, h6, h7, h8],
                    ?_⟩
                  have ha : hexVal (hexChar (c.toNat / 16)) = some (c.toNat / 16) :=
                    hexVal_hexChar _ (by omega)
                  have hb : hexVal (hexChar (c.toNat % 16)) = some (c.toNat % 16) :=
                    hexVal_hexChar _ (by omega)
                  have h0 : hexVal '0' = some 0 := by decide
                  simp [parseEscape, ha, hb, h0]
                  rw [show c.toNat / 16 * 16 + c.toNat % 16 = c.toNat by omega]
                  exact Char.ofNat_toNat c
                · exact Or.inr ⟨by simp [escChar, h1, h2, h3, h4, h5, h6, h7, h8],
                    eq_false h1, eq_false h2⟩

theorem escChar_length_pos (c : Char) : 0 < (escChar c).length := by
  unfold escChar
  repeat' split
  all_goals simp

theorem escapeChars_length (s : List Char) : s.length ≤ (escapeChars s).length := by
  induction s with
  | nil => simp [escapeChars]
  | cons c cs ih =>
    have := escChar_length_pos c
    simp only [escapeChars, List.length_append, List.length_cons]
    omega

theorem parseStrBody_escape (s : List Char) : ∀ (fuel : Nat) (rest : List Char),
    s.length + 1 ≤ fuel →
    parseStrBody fuel (escapeChars s ++ '"' :: rest) = some (s, rest) := by
  induction s with
  | nil =>
    intro fuel rest hf
    match fuel, hf with
    | f + 1, _ => simp [escapeChars, parseStrBody]
  | cons c cs ih =>
    intro fuel rest hf
    match fuel, hf with
    | f + 1, hf =>
      have hf' : cs.length + 1 ≤ f := by
        simp only [List.length_cons] at hf; omega
      rcases escChar_spec c (escapeChars cs ++ '"' :: rest) with ⟨t, ht, hp⟩ | ⟨he, h1, h2⟩
      · rw [escapeChars, List.append_assoc, ht]
        simp only [List.cons_append, parseStrBody]
        simp [hp, ih f rest hf']
      · rw [escapeChars, List.append_assoc, he]
        simp only [List.singleton_append, parseStrBody]
        simp [h1, h2, ih f rest hf']

/-! ## Round-trip: the parser inverts the renderer -/

theorem intChars_head (n : Int) :
    ∃ c cs, intChars n = c :: cs ∧ (c ∈ digitChars ∨ c = '-') := by
  by_cases hn : n < 0
  · exact ⟨'-', natChars (-n).toNat, by simp [intChars, hn], Or.inr rfl⟩
  · obtain ⟨hne, hmem, _⟩ := natChars_spec n.toNat
    cases hh : natChars n.toNat with
    | nil => exact absurd hh hne
    | cons c cs =>
      exact ⟨c, cs, by simp [intChars, hn, hh], Or.inl (hmem c (by rw [hh]; simp))⟩

theorem renderJson_head (j : Json) :
    ∃ c cs, renderJson j = c :: cs ∧ (c = ']') = False := by
  cases j with
  | null => exact ⟨'n', ['u', 'l', 'l'], by simp [renderJson], by simp⟩
  | bool b =>
    cases b with
    | true => exact ⟨'t', ['r', 'u', 'e'], by simp [renderJson], by simp⟩
    | false => exact ⟨'f', ['a', 'l', 's', 'e'], by simp [renderJson], by simp⟩
  | num n =>
    obtain ⟨c, cs, hcs, hc⟩ := intChars_head n
    refine ⟨c, cs, by simp [renderJson, hcs], ?_⟩
    rcases hc with h | h
    · exact (mem_digitChars_ne c h).2.2.2.2.2.2.2
    · subst h; simp
  | str s => exact ⟨'"', escapeChars s.data ++ ['"'], by simp [renderJson], by simp⟩
  | arr xs =>
    cases xs with
    | nil => exact ⟨'[', [']'], by simp [renderJson], by simp⟩
    | cons x xs =>
      exact ⟨'[', renderJson x ++ renderArrTail xs, by simp [renderJson], by simp⟩
  | obj fs =>
    cases fs with
    | nil => exact ⟨'\x7b', ['\x7d'], by simp [renderJson], by simp⟩
    | cons f fs =>
      exact ⟨'\x7b', renderField f ++ renderObjTail fs, by simp [renderJson], by simp⟩

theorem renderArrTail_headSat (xs : List Json) (rest : List Char) :
    headSat isDigitChar (renderArrTail xs ++ rest) = false := by
  cases xs <;> simp [renderArrTail, headSat] <;> decide

theorem renderObjTail_headSat (fs : List (String × Json)) (rest : List Char) :
    headSat isDigitChar (renderObjTail fs ++ rest) = false := by
  cases fs <;> simp [renderObjTail, headSat] <;> decide

mutual
theorem parseJson_render : ∀ (j : Json) (fuel : Nat) (rest : List Char),
    jsize j ≤ fuel → headSat isDigitChar rest = false →
    parseJson fuel (renderJson j ++ rest) = some (j, rest)
  | j, 0, _, hf, _ => by
    exfalso
    cases j with
    | arr xs => cases xs <;> simp only [jsize] at hf <;> omega
    | obj fs => cases fs <;> simp only [jsize] at hf <;> omega
    | _ => simp only [jsize] at hf; omega
  | .null, f + 1, rest, hf, hr => by simp [renderJson, parseJson]
  | .bool true, f + 1, rest, hf, hr => by simp [renderJson, parseJson]
  | .bool false, f + 1, rest, hf, hr => by simp [renderJson, parseJson]
  | .num n, f + 1, rest, hf, hr => by
    obtain ⟨c, cs, hcs, hc⟩ := intChars_head n
    have h6 : ((c = '"') = False) ∧ ((c = '[') = False) ∧ ((c = '\x7b') = False) ∧
        ((c = 'n') = False) ∧ ((c = 't') = False) ∧ ((c = 'f') = False) := by
      rcases hc with h | h
      · have hh := mem_digitChars_ne c h
        exact ⟨hh.2.1, hh.2.2.1, hh.2.2.2.1, hh.2.2.2.2.1, hh.2.2.2.2.2.1,
          hh.2.2.2.2.2.2.1⟩
      · subst h; refine ⟨?_, ?_, ?_, ?_, ?_, ?_⟩ <;> simp
    rw [show renderJson (.num n) = intChars n by simp [renderJson], hcs]
    simp only [List.cons_append, parseJson, h6.1, h6.2.1, h6.2.2.1, h6.2.2.2.1,
      h6.2.2.2.2.1, h6.2.2.2.2.2, if_false]
    rw [← List.cons_append, ← hcs, parseIntTok_intChars n rest hr]
    simp
  | .str s, f + 1, rest, hf, hr => by
    rw [show renderJson (.str s) = '"' :: (escapeChars s.data ++ ['"']) by simp [renderJson]]
    simp only [List.cons_append, parseJson]
    have hx : (escapeChars s.data ++ ['"']) ++ rest = escapeChars s.data ++ '"' :: rest := by
      simp
    rw [hx]
    have hlen : s.data.length + 1 ≤ (escapeChars s.data ++ '"' :: rest).length + 1 := by
      have := escapeChars_length s.data
      simp only [List.length_append, List.length_cons]
      omega
    rw [parseStrBody_escape s.data _ rest hlen]
    simp
  | .arr [], f + 1, rest, hf, hr => by
    rw [show renderJson (.arr []) = ['[', ']'] by simp [renderJson]]
    simp [parseJson]
  | .arr (x :: xs), f + 1, rest, hf, hr => by
    have hx : jsize x ≤ f := by simp only [jsize] at hf; omega
    have hxs : jlistSize xs ≤ f := by simp only [jsize] at hf; omega
    obtain ⟨ch, ct, hch, hne⟩ := renderJson_head x
    have hpj := parseJson_render x f (renderArrTail xs ++ rest) hx (renderArrTail_headSat xs rest)
    rw [hch] at hpj
    simp only [List.cons_append] at hpj
    rw [show renderJson (.arr (x :: xs)) = '[' :: (renderJson x ++ renderArrTail xs)
      by simp [renderJson]]
    simp only [List.cons_append, List.append_assoc, parseJson]
    simp [hch, hne, hpj, parseArrTail_render xs f rest hxs hr]
  | .obj [], f + 1, rest, hf, hr => by
    rw [show renderJson (.obj []) = ['\x7b', '\x7d'] by simp [renderJson]]
    simp [parseJson]
  | .obj (fd :: fs), f + 1, rest, hf, hr => by
    have hfd : jfieldSize fd ≤ f := by simp only [jsize] at hf; omega
    have hfs : jflistSize fs ≤ f := by simp only [jsize] at hf; omega
    obtain ⟨k, v⟩ := fd
    have hfld : renderField (k, v) = '"' :: (escapeChars k.data ++ ['"', ':'] ++ renderJson v) := by
      simp [renderField]
    have hpf := parseField_render (k, v) f (renderObjTail fs ++ rest) hfd
      (renderObjTail_headSat fs rest)
    rw [hfld] at hpf
    simp only [List.cons_append, List.append_assoc, List.nil_append] at hpf
    rw [show renderJson (.obj ((k, v) :: fs)) = '\x7b' :: (renderField (k, v) ++ renderObjTail fs)
      by simp [renderJson]]
    simp only [List.cons_append, List.append_assoc, parseJson]
    simp [hfld, hpf, parseObjTail_render fs f rest hfs hr]
theorem parseField_render : ∀ (fd : String × Json) (fuel : Nat) (rest : List Char),
    jfieldSize fd ≤ fuel → headSat isDigitChar rest = false →
    parseField fuel (renderField fd ++ rest) = some (fd, rest)
  | fd, 0, _, hf, _ => by
    obtain ⟨k, v⟩ := fd; simp only [jfieldSize] at hf; omega
  | (k, v), fl + 1, rest, hf, hr => by
    have hv : jsize v ≤ fl := by simp only [jfieldSize] at hf; omega
    rw [show renderField (k, v) = '"' :: (escapeChars k.data ++ ['"', ':'] ++ renderJson v)
      by simp [renderField]]
    simp only [List.cons_append, parseField]
    have hshape : (escapeChars k.data ++ ['"', ':'] ++ renderJson v) ++ rest
        = escapeChars k.data ++ '"' :: (':' :: (renderJson v ++ rest)) := by simp
    rw [hshape]
    have hlen : k.data.length + 1
        ≤ (escapeChars k.data ++ '"' :: (':' :: (renderJson v ++ rest))).length + 1 := by
      have := escapeChars_length k.data
      simp only [List.length_append, List.length_cons]
      omega
    rw [parseStrBody_escape k.data _ _ hlen]
    simp [parseJson_render v fl rest hv hr]
theorem parseArrTail_render : ∀ (xs : List Json) (fuel : Nat) (rest : List Char),
    jlistSize xs ≤ fuel → headSat isDigitChar rest = false →
    parseArrTail fuel (renderArrTail xs ++ rest) = some (xs, rest)
  | xs, 0, _, hf, _ => by cases xs <;> simp only [jlistSize] at hf <;> omega
  | [], f + 1, rest, hf, hr => by simp [renderArrTail, parseArrTail]
  | x :: xs, f + 1, rest, hf, hr => by
    have hx : jsize x ≤ f := by simp only [jlistSize] at hf; omega
    have hxs : jlistSize xs ≤ f := by simp only [jlistSize] at hf; omega
    rw [show renderArrTail (x :: xs) = ',' :: (renderJson x ++ renderArrTail xs)
      by simp [renderArrTail]]
    simp only [List.cons_append, List.append_assoc, parseArrTail]
    simp [parseJson_render x f (renderArrTail xs ++ rest) hx (renderArrTail_headSat xs rest),
      parseArrTail_render xs f rest hxs hr]
theorem parseObjTail_render : ∀ (fs : List (String × Json)) (fuel : Nat) (rest : List Char),
    jflistSize fs ≤ fuel → headSat isDigitChar rest = false →
    parseObjTail fuel (renderObjTail fs ++ rest) = some (fs, rest)
  | fs, 0, _, hf, _ => by cases fs <;> simp only [jflistSize] at hf <;> omega
  | [], f + 1, rest, hf, hr => by simp [renderObjTail, parseObjTail]
  | fd :: fs, f + 1, rest, hf, hr => by
    have hfd : jfieldSize fd ≤ f := by simp only [jflistSize] at hf; omega
    have hfs : jflistSize fs ≤ f := by simp only [jflistSize] at hf; omega
    rw [show renderObjTail (fd :: fs) = ',' :: (renderField fd ++ renderObjTail fs)
      by simp [renderObjTail]]
    simp only [List.cons_append, List.append_assoc, parseObjTail]
    simp [parseField_render fd f (renderObjTail fs ++ rest) hfd (renderObjTail_headSat fs rest),
      parseObjTail_render fs f rest hfs hr]
end

/-! ## The work-item record model (`WorkItem` / `LogEntry` in src/work.ts) -/

/-- A log entry `{time, agent?, text}` as in src/work.ts. -/
structure LogEntry where
  time : String
  agent : Option String
  text : String
deriving Repr, DecidableEq, Inhabited

/-- A work item row/record.  `status` and `type` are stored as TEXT in the
table, so they are strings here; `priority` is an INTEGER column.  Optional
fields are `none` when the column is NULL / the JSON key is absent.
`author` and `assignee` carry the spec's interchange-record shape (§6);
the `work.ts` under src/ has no such columns, so for them this follows the
spec and the repository's tests. -/
structure WorkItem where
  id : String
  title : String
  status : String
  priority : Int
  type : String
  created : String
  updated : String
  description : Option String
  blocked_by : Option (List String)
  labels : Option (List String)
  closed_reason : Option String
  log : Option (List LogEntry)
  author : Option String
  assignee : Option String
deriving Repr, DecidableEq, Inhabited

/-- Key order of a serialised log entry: the `log` command builds
`{time, text}` and then adds `agent` when the flag is present. -/
def logEntryToJson (e : LogEntry) : Json :=
  .obj ([("time", .str e.time), ("text", .str e.text)] ++
    (match e.agent with
     | some a => [("agent", .str a)]
     | none => []))

/-- One optional serialised field: omitted when the value is absent,
as `JSON.stringify` omits `undefined` properties. -/
def optField (name : String) (v : Option Json) : List (String × Json) :=
  match v with
  | some j => [(name, j)]
  | none => []

/-- The serialised fields of a work item, in the key order `rowToWorkItem`
builds the record (which is the order `JSON.stringify` emits). -/
def itemFields (i : WorkItem) : List (String × Json) :=
  [("id", .str i.id), ("title", .str i.title), ("status", .str i.status),
   ("priority", .num i.priority), ("type", .str i.type),
   ("created", .str i.created), ("updated", .str i.updated)]
  ++ optField "description" (i.description.map .str)
  ++ optField "blocked_by" (i.blocked_by.map fun l => .arr (l.map .str))
  ++ optField "labels" (i.labels.map fun l => .arr (l.map .str))
  ++ optField "closed_reason" (i.closed_reason.map .str)
  ++ optField "log" (i.log.map fun l => .arr (l.map logEntryToJson))
  ++ optField "author" (i.author.map .str)
  ++ optField "assignee" (i.assignee.map .str)

/-- JSON value of one work item as `exportToJsonl` serialises it. -/
def itemToJson (i : WorkItem) : Json := .obj (itemFields i)

/-- Key lookup in a JSON object; later duplicates win, as in
`JSON.parse` for JavaScript objects. -/
def jlookup (fields : List (String × Json)) (k : String) : Option Json :=
  fields.foldl (fun acc f => if f.1 = k then some f.2 else acc) none

/-- Required string field (the import path binds it into a NOT NULL TEXT
column, so a missing or non-string value is a failure). -/
def getStrF (fields : List (String × Json)) (k : String) : Option String :=
  match jlookup fields k with
  | some (.str s) => some s
  | _ => none

/-- Required integer field (`priority`). -/
def getNumF (fields : List (String × Json)) (k : String) : Option Int :=
  match jlookup fields k with
  | some (.num n) => some n
  | _ => none

/-- Optional string field: absent or `null` is `none` (`item.x || null`). -/
def getOptStrF (fields : List (String × Json)) (k : String) : Option (Option String) :=
  match jlookup fields k with
  | none => some none
  | some .null => some none
  | some (.str s) => some (some s)
  | some _ => none

/-- A JSON string, else failure. -/
def asStr : Json → Option String
  | .str s => some s
  | _ => none

/-- Convert every element, failing if any conversion fails. -/
def mapOpt (f : α → Option β) : List α → Option (List β)
  | [] => some []
  | x :: xs =>
    match f x with
    | some y => (mapOpt f xs).map fun ys => y :: ys
    | none => none

/-- Optional array-of-strings field (`blocked_by`, `labels`). -/
def getOptStrArr (fields : List (String × Json)) (k : String) :
    Option (Option (List String)) :=
  match jlookup fields k with
  | none => some none
  | some .null => some none
  | some (.arr xs) => (mapOpt asStr xs).map some
  | some _ => none

/-- Decode one log entry from its JSON object. -/
def logEntryFromJson : Json → Option LogEntry
  | .obj fs => do
    let t ← getStrF fs "time"
    let x ← getStrF fs "text"
    let a ← getOptStrF fs "agent"
    pure ⟨t, a, x⟩
  | _ => none

/-- Optional log field. -/
def getOptLog (fields : List (String × Json)) (k : String) :
    Option (Option (List LogEntry)) :=
  match jlookup fields k with
  | none => some none
  | some .null => some none
  | some (.arr xs) => (mapOpt logEntryFromJson xs).map some
  | some _ => none

/-- Decode a work item from a parsed JSON value, per the interchange
record shape (§6): the seven mandatory columns must be present with
their column types, every other field is optional. -/
def jsonToItem : Json → Option WorkItem
  | .obj fs => do
    let id ← getStrF fs "id"
    let title ← getStrF fs "title"
    let status ← getStrF fs "status"
    let priority ← getNumF fs "priority"
    let ty ← getStrF fs "type"
    let created ← getStrF fs "created"
    let updated ← getStrF fs "updated"
    let description ← getOptStrF fs "description"
    let blocked_by ← getOptStrArr fs "blocked_by"
    let labels ← getOptStrArr fs "labels"
    let closed_reason ← getOptStrF fs "closed_reason"
    let lg ← getOptLog fs "log"
    let author ← getOptStrF fs "author"
    let assignee ← getOptStrF fs "assignee"
    pure { id := id, title := title, status := status, priority := priority, type := ty,
           created := created, updated := updated, description := description,
           blocked_by := blocked_by, labels := labels, closed_reason := closed_reason,
           log := lg, author := author, assignee := assignee }
  | _ => none

/-! ## Item-level round-trip -/

theorem jlookup_nil (k : String) : jlookup [] k = none := rfl

theorem jlookup_foldl_init (k : String) : ∀ (l : List (String × Json)) (a : Option Json),
    l.foldl (fun acc f => if f.1 = k then some f.2 else acc) a
      = match jlookup l k with
        | some v => some v
        | none => a := by
  intro l
  induction l with
  | nil => intro a; simp [jlookup]
  | cons f fs ih =>
    intro a
    show List.foldl _ (if f.1 = k then some f.2 else a) fs = _
    rw [ih]
    have hfs : jlookup (f :: fs) k
        = match jlookup fs k with
          | some v => some v
          | none => if f.1 = k then some f.2 else none := by
      show List.foldl _ (if f.1 = k then some f.2 else none) fs = _
      rw [ih]
    rw [hfs]
    cases jlookup fs k with
    | some v => rfl
    | none => by_cases hf : f.1 = k <;> simp [hf]

theorem jlookup_append (l1 l2 : List (String × Json)) (k : String) :
    jlookup (l1 ++ l2) k = (jlookup l2 k).or (jlookup l1 k) := by
  show (l1 ++ l2).foldl _ none = _
  rw [List.foldl_append]
  show l2.foldl _ (jlookup l1 k) = _
  rw [jlookup_foldl_init k l2 (jlookup l1 k)]
  cases jlookup l2 k <;> simp [Option.or]

theorem jlookup_cons (f : String × Json) (fs : List (String × Json)) (k : String) :
    jlookup (f :: fs) k = (jlookup fs k).or (if f.1 = k then some f.2 else none) := by
  have h := jlookup_append [f] fs k
  simpa [jlookup] using h

theorem optField_lookup (name : String) (v : Option Json) (k : String) :
    jlookup (optField name v) k = if name = k then v else none := by
  cases v <;> simp [optField, jlookup]

theorem lookup_item_id (i : WorkItem) : jlookup (itemFields i) "id" = some (.str i.id) := by
  simp [itemFields, jlookup_append, optField_lookup, jlookup_cons, jlookup_nil]

theorem lookup_item_title (i : WorkItem) :
    jlookup (itemFields i) "title" = some (.str i.title) := by
  simp [itemFields, jlookup_append, optField_lookup, jlookup_cons, jlookup_nil]

theorem lookup_item_status (i : WorkItem) :
    jlookup (itemFields i) "status" = some (.str i.status) := by
  simp [itemFields, jlookup_append, optField_lookup, jlookup_cons, jlookup_nil]

theorem lookup_item_priority (i : WorkItem) :
    jlookup (itemFields i) "priority" = some (.num i.priority) := by
  simp [itemFields, jlookup_append, optField_lookup, jlookup_cons, jlookup_nil]

theorem lookup_item_type (i : WorkItem) :
    jlookup (itemFields i) "type" = some (.str i.type) := by
  simp [itemFields, jlookup_append, optField_lookup, jlookup_cons, jlookup_nil]

theorem lookup_item_created (i : WorkItem) :
    jlookup (itemFields i) "created" = some (.str i.created) := by
  simp [itemFields, jlookup_append, optField_lookup, jlookup_cons, jlookup_nil]

theorem lookup_item_updated (i : WorkItem) :
    jlookup (itemFields i) "updated" = some (.str i.updated) := by
  simp [itemFields, jlookup_append, optField_lookup, jlookup_cons, jlookup_nil]

theorem lookup_item_description (i : WorkItem) :
    jlookup (itemFields i) "description" = i.description.map Json.str := by
  simp [itemFields, jlookup_append, optField_lookup, jlookup_cons, jlookup_nil]

theorem lookup_item_blocked_by (i : WorkItem) :
    jlookup (itemFields i) "blocked_by"
      = i.blocked_by.map fun l => Json.arr (l.map Json.str) := by
  simp [itemFields, jlookup_append, optField_lookup, jlookup_cons, jlookup_nil]

theorem lookup_item_labels (i : WorkItem) :
    jlookup (itemFields i) "labels" = i.labels.map fun l => Json.arr (l.map Json.str) := by
  simp [itemFields, jlookup_append, optField_lookup, jlookup_cons, jlookup_nil]

theorem lookup_item_closed_reason (i : WorkItem) :
    jlookup (itemFields i) "closed_reason" = i.closed_reason.map Json.str := by
  simp [itemFields, jlookup_append, optField_lookup, jlookup_cons, jlookup_nil]

theorem lookup_item_log (i : WorkItem) :
    jlookup (itemFields i) "log" = i.log.map fun l => Json.arr (l.map logEntryToJson) := by
  simp [itemFields, jlookup_append, optField_lookup, jlookup_cons, jlookup_nil]

theorem lookup_item_author (i : WorkItem) :
    jlookup (itemFields i) "author" = i.author.map Json.str := by
  simp [itemFields, jlookup_append, optField_lookup, jlookup_cons, jlookup_nil]

theorem lookup_item_assignee (i : WorkItem) :
    jlookup (itemFields i) "assignee" = i.assignee.map Json.str := by
  simp [itemFields, jlookup_append, optField_lookup, jlookup_cons, jlookup_nil]

theorem getStrF_eval {fs : List (String × Json)} {k : String} {s : String}
    (h : jlookup fs k = some (.str s)) : getStrF fs k = some s := by
  simp [getStrF, h]

theorem getNumF_eval {fs : List (String × Json)} {k : String} {n : Int}
    (h : jlookup fs k = some (.num n)) : getNumF fs k = some n := by
  simp [getNumF, h]

theorem getOptStrF_eval {fs : List (String × Json)} {k : String} (o : Option String)
    (h : jlookup fs k = o.map Json.str) : getOptStrF fs k = some o := by
  cases o <;> simp_all [getOptStrF]

theorem mapM_asStr (l : List String) : mapOpt asStr (l.map Json.str) = some l := by
  induction l with
  | nil => rfl
  | cons s l ih => simp [mapOpt, asStr, ih]

theorem getOptStrArr_eval {fs : List (String × Json)} {k : String} (o : Option (List String))
    (h : jlookup fs k = o.map fun l => Json.arr (l.map Json.str)) :
    getOptStrArr fs k = some o := by
  cases o with
  | none => simp_all [getOptStrArr]
  | some l => simp_all [getOptStrArr, mapM_asStr]

theorem logEntryFromJson_to (e : LogEntry) : logEntryFromJson (logEntryToJson e) = some e := by
  obtain ⟨t, a, x⟩ := e
  cases a <;>
    simp [logEntryToJson, logEntryFromJson, getStrF, getOptStrF, jlookup_append,
      jlookup_cons, jlookup_nil]

theorem mapM_logEntry (l : List LogEntry) :
    mapOpt logEntryFromJson (l.map logEntryToJson) = some l := by
  induction l with
  | nil => rfl
  | cons e l ih => simp [mapOpt, logEntryFromJson_to, ih]

theorem getOptLog_eval {fs : List (String × Json)} {k : String} (o : Option (List LogEntry))
    (h : jlookup fs k = o.map fun l => Json.arr (l.map logEntryToJson)) :
    getOptLog fs k = some o := by
  cases o with
  | none => simp_all [getOptLog]
  | some l => simp_all [getOptLog, mapM_logEntry]

/-- Decoding the serialisation of a work item recovers it field for field. -/
theorem jsonToItem_itemToJson (i : WorkItem) : jsonToItem (itemToJson i) = some i := by
  simp [itemToJson, jsonToItem,
    getStrF_eval (lookup_item_id i), getStrF_eval (lookup_item_title i),
    getStrF_eval (lookup_item_status i), getNumF_eval (lookup_item_priority i),
    getStrF_eval (lookup_item_type i), getStrF_eval (lookup_item_created i),
    getStrF_eval (lookup_item_updated i),
    getOptStrF_eval i.description (lookup_item_description i),
    getOptStrArr_eval i.blocked_by (lookup_item_blocked_by i),
    getOptStrArr_eval i.labels (lookup_item_labels i),
    getOptStrF_eval i.closed_reason (lookup_item_closed_reason i),
    getOptLog_eval i.log (lookup_item_log i),
    getOptStrF_eval i.author (lookup_item_author i),
    getOptStrF_eval i.assignee (lookup_item_assignee i)]

/-! ## Rendered JSON contains no newline and no leading/trailing whitespace -/

theorem hexChar_ne_nl (k : Nat) (hk : k < 16) : ('\n' = hexChar k) = False := by
  revert hk; revert k; decide

theorem escChar_no_nl (c : Char) : '\n' ∉ escChar c := by
  by_cases h1 : c = '"'
  · subst h1; decide
  · by_cases h2 : c = '\\'
    · subst h2; decide
    · by_cases h3 : c = '\n'
      · subst h3; decide
      · by_cases h4 : c = '\r'
        · subst h4; decide
        · by_cases h5 : c = '\t'
          · subst h5; decide
          · by_cases h6 : c = Char.ofNat 8
            · subst h6; decide
            · by_cases h7 : c = Char.ofNat 12
              · subst h7; decide
              · by_cases h8 : c.toNat < 32
                · simp only [escChar, h1, h2, h3, h4, h5, h6, h7, h8, if_false, if_true,
                    if_neg, if_pos]
                  simp [hexChar_ne_nl (c.toNat / 16) (by omega),
                    hexChar_ne_nl (c.toNat % 16) (by omega)]
                · simp only [escChar, h1, h2, h3, h4, h5, h6, h7, h8, if_false]
                  simp [Ne.symm h3]

theorem escapeChars_no_nl (s : List Char) : '\n' ∉ escapeChars s := by
  induction s with
  | nil => simp [escapeChars]
  | cons c cs ih =>
    simp only [escapeChars, List.mem_append]
    rintro (h | h)
    · exact escChar_no_nl c h
    · exact ih h

theorem digitChars_no_nl (c : Char) (h : c ∈ digitChars) : '\n' ≠ c := by
  fin_cases h <;> decide

theorem intChars_no_nl (n : Int) : '\n' ∉ intChars n := by
  intro hmem
  by_cases hn : n < 0
  · simp only [intChars, if_pos hn, List.mem_cons] at hmem
    rcases hmem with h | h
    · exact absurd h (by decide)
    · obtain ⟨_, hmemd, _⟩ := natChars_spec (-n).toNat
      exact digitChars_no_nl _ (hmemd _ h) rfl
  · simp only [intChars, if_neg hn] at hmem
    obtain ⟨_, hmemd, _⟩ := natChars_spec n.toNat
    exact digitChars_no_nl _ (hmemd _ hmem) rfl

mutual
theorem renderJson_no_nl : ∀ j : Json, '\n' ∉ renderJson j
  | .null => by simp [renderJson]
  | .bool true => by simp [renderJson]
  | .bool false => by simp [renderJson]
  | .num n => by
    rw [show renderJson (.num n) = intChars n by simp [renderJson]]
    exact intChars_no_nl n
  | .str s => by
    rw [show renderJson (.str s) = '"' :: (escapeChars s.data ++ ['"']) by simp [renderJson]]
    simp only [List.mem_cons, List.mem_append]
    rintro (h | h | h)
    · exact absurd h (by decide)
    · exact escapeChars_no_nl s.data h
    · simp at h
  | .arr [] => by simp [renderJson]
  | .arr (x :: xs) => by
    rw [show renderJson (.arr (x :: xs)) = '[' :: (renderJson x ++ renderArrTail xs)
      by simp [renderJson]]
    simp only [List.mem_cons, List.mem_append]
    rintro (h | h | h)
    · exact absurd h (by decide)
    · exact renderJson_no_nl x h
    · exact renderArrTail_no_nl xs h
  | .obj [] => by simp [renderJson]
  | .obj (f :: fs) => by
    rw [show renderJson (.obj (f :: fs)) = '\x7b' :: (renderField f ++ renderObjTail fs)
      by simp [renderJson]]
    simp only [List.mem_cons, List.mem_append]
    rintro (h | h | h)
    · exact absurd h (by decide)
    · exact renderField_no_nl f h
    · exact renderObjTail_no_nl fs h
theorem renderField_no_nl : ∀ f : String × Json, '\n' ∉ renderField f
  | (k, v) => by
    rw [show renderField (k, v) = '"' :: (escapeChars k.data ++ ['"', ':'] ++ renderJson v)
      by simp [renderField]]
    simp only [List.mem_cons, List.mem_append]
    rintro (h | (h | h) | h)
    · exact absurd h (by decide)
    · exact escapeChars_no_nl k.data h
    · simp at h
    · exact renderJson_no_nl v h
theorem renderArrTail_no_nl : ∀ xs : List Json, '\n' ∉ renderArrTail xs
  | [] => by simp [renderArrTail]
  | x :: xs => by
    rw [show renderArrTail (x :: xs) = ',' :: (renderJson x ++ renderArrTail xs)
      by simp [renderArrTail]]
    simp only [List.mem_cons, List.mem_append]
    rintro (h | h | h)
    · exact absurd h (by decide)
    · exact renderJson_no_nl x h
    · exact renderArrTail_no_nl xs h
theorem renderObjTail_no_nl : ∀ fs : List (String × Json), '\n' ∉ renderObjTail fs
  | [] => by simp [renderObjTail]
  | f :: fs => by
    rw [show renderObjTail (f :: fs) = ',' :: (renderField f ++ renderObjTail fs)
      by simp [renderObjTail]]
    simp only [List.mem_cons, List.mem_append]
    rintro (h | h | h)
    · exact absurd h (by decide)
    · exact renderField_no_nl f h
    · exact renderObjTail_no_nl fs h
end

theorem renderObjTail_last (fs : List (String × Json)) :
    ∃ cs, renderObjTail fs = cs ++ ['\x7d'] := by
  induction fs with
  | nil => exact ⟨[], by simp [renderObjTail]⟩
  | cons f fs ih =>
    obtain ⟨cs, hcs⟩ := ih
    exact ⟨',' :: (renderField f ++ cs), by simp [renderObjTail, hcs]⟩

/-- Every serialised work item starts with `{` and ends with `}`. -/
theorem renderItem_shape (i : WorkItem) :
    ∃ body, renderJson (itemToJson i) = '\x7b' :: body ∧
      ∃ cs, renderJson (itemToJson i) = cs ++ ['\x7d'] := by
  rw [show itemToJson i = .obj (itemFields i) from rfl]
  cases hfs : itemFields i with
  | nil =>
    refine ⟨['\x7d'], by simp [renderJson], ⟨['\x7b'], by simp [renderJson]⟩⟩
  | cons f fs =>
    obtain ⟨cs, hcs⟩ := renderObjTail_last fs
    refine ⟨renderField f ++ renderObjTail fs, by simp [renderJson], ?_⟩
    exact ⟨'\x7b' :: (renderField f ++ cs), by simp [renderJson, hcs]⟩

/-! ## The interchange codec (JSONL text) -/

/-- `String.prototype.split("\n")` on character lists. -/
def splitNl : List Char → List (List Char)
  | [] => [[]]
  | c :: cs =>
    if c = '\n' then [] :: splitNl cs
    else
      match splitNl cs with
      | l :: ls => (c :: l) :: ls
      | [] => [[c]]

/-- `Array.prototype.join("\n")` on character lists. -/
def joinNl : List (List Char) → List Char
  | [] => []
  | [l] => l
  | l :: ls => l ++ '\n' :: joinNl ls

/-- `String.prototype.trim()` restricted to ASCII whitespace. -/
def trimChars (cs : List Char) : List Char :=
  (((cs.dropWhile isWsChar).reverse).dropWhile isWsChar).reverse

theorem splitNl_no_nl (l : List Char) (h : '\n' ∉ l) : splitNl l = [l] := by
  induction l with
  | nil => rfl
  | cons c cs ih =>
    have hc : ¬(c = '\n') := fun he => h (by simp [he])
    have hcs := ih (fun hm => h (by simp [hm]))
    simp [splitNl, hc, hcs]

theorem splitNl_line (l rest : List Char) (h : '\n' ∉ l) :
    splitNl (l ++ '\n' :: rest) = l :: splitNl rest := by
  induction l with
  | nil => simp [splitNl]
  | cons c cs ih =>
    have hc : ¬(c = '\n') := fun he => h (by simp [he])
    have hcs := ih (fun hm => h (by simp [hm]))
    simp [splitNl, hc, hcs]

theorem splitNl_joinNl : ∀ ls : List (List Char), ls ≠ [] → (∀ l ∈ ls, '\n' ∉ l) →
    splitNl (joinNl ls) = ls
  | [], h, _ => absurd rfl h
  | [l], _, hnl => by
    rw [show joinNl [l] = l by simp [joinNl]]
    exact splitNl_no_nl l (hnl l (by simp))
  | l :: l' :: ls, _, hnl => by
    rw [show joinNl (l :: l' :: ls) = l ++ '\n' :: joinNl (l' :: ls) by simp [joinNl]]
    rw [splitNl_line l _ (hnl l (by simp))]
    rw [splitNl_joinNl (l' :: ls) (by simp) (fun x hx => hnl x (by simp [hx]))]

theorem dropWhile_head_false (p : Char → Bool) (c : Char) (cs : List Char)
    (h : p c = false) : (c :: cs).dropWhile p = c :: cs := by
  simp [List.dropWhile, h]

theorem trimChars_wrap (content : List Char) (c0 cl : Char) (body tail : List Char)
    (hhead : content = c0 :: body) (hw0 : isWsChar c0 = false)
    (hlast : content = tail ++ [cl]) (hwl : isWsChar cl = false) :
    trimChars (content ++ ['\n']) = content := by
  unfold trimChars
  rw [hhead]
  rw [show (c0 :: body) ++ ['\n'] = c0 :: (body ++ ['\n']) by simp]
  rw [dropWhile_head_false isWsChar c0 _ hw0]
  rw [show c0 :: (body ++ ['\n']) = (c0 :: body) ++ ['\n'] by simp, ← hhead, hlast]
  rw [show (tail ++ [cl]) ++ ['\n'] = tail ++ [cl] ++ ['\n'] by simp]
  rw [List.reverse_append, List.reverse_append]
  simp only [List.reverse_cons, List.reverse_nil, List.nil_append, List.singleton_append,
    List.cons_append]
  rw [show List.dropWhile isWsChar ('\n' :: cl :: tail.reverse)
      = List.dropWhile isWsChar (cl :: tail.reverse) by simp [List.dropWhile]; rfl]
  rw [dropWhile_head_false isWsChar cl _ hwl]
  simp

/-- The text `exportToJsonl` writes for a list of items: one JSON record
per line joined with newlines, plus a final newline when the content is
non-empty (`content ? content + "\n" : ""`). -/
def encodeChars (items : List WorkItem) : List Char :=
  let content := joinNl (items.map fun i => renderJson (itemToJson i))
  if content = [] then [] else content ++ ['\n']

/-- `encode`: the interchange text for an ordered sequence of work items. -/
def encode (items : List WorkItem) : String := ⟨encodeChars items⟩

/-- `JSON.parse` of one line (must consume the whole line). -/
def parseLineJson (l : List Char) : Option Json :=
  match parseJson (l.length + 1) l with
  | some (j, []) => some j
  | _ => none

/-- The decode path of `import`: trim the file, an empty result is the
empty sequence, otherwise split on newlines and `JSON.parse` every line
(a failing line is a decode failure). -/
def decodeJsonLines (cs : List Char) : Option (List Json) :=
  let t := trimChars cs
  if t = [] then some []
  else mapOpt parseLineJson (splitNl t)

/-- Full decode to work items: parse every line, then read each record
into the interchange record shape. -/
def decodeChars (cs : List Char) : Option (List WorkItem) :=
  (decodeJsonLines cs).bind (mapOpt jsonToItem)

/-- `decode`: work items of an interchange text. -/
def decode (s : String) : Option (List WorkItem) := decodeChars s.data

theorem mapOpt_map_eq {α β : Type} (f : β → Option α) (g : α → β) (l : List α)
    (h : ∀ x ∈ l, f (g x) = some x) : mapOpt f (l.map g) = some l := by
  induction l with
  | nil => rfl
  | cons x xs ih =>
    simp only [List.map_cons, mapOpt, h x (by simp)]
    rw [ih (fun y hy => h y (by simp [hy]))]
    rfl

mutual
theorem jsize_le_render : ∀ j : Json, jsize j ≤ (renderJson j).length
  | .null => by simp [renderJson, jsize]
  | .bool true => by simp [renderJson, jsize]
  | .bool false => by simp [renderJson, jsize]
  | .num n => by
    rw [show renderJson (.num n) = intChars n by simp [renderJson]]
    have hne : intChars n ≠ [] := by
      by_cases hn : n < 0
      · simp [intChars, hn]
      · simp only [intChars, if_neg hn]
        exact (natChars_spec n.toNat).1
    have := List.length_pos.mpr hne
    simp only [jsize]
    omega
  | .str s => by
    rw [show renderJson (.str s) = '"' :: (escapeChars s.data ++ ['"']) by simp [renderJson]]
    simp [jsize]
  | .arr [] => by simp [renderJson, jsize]
  | .arr (x :: xs) => by
    have h1 := jsize_le_render x
    have h2 := jlistSize_le_render xs
    rw [show renderJson (.arr (x :: xs)) = '[' :: (renderJson x ++ renderArrTail xs)
      by simp [renderJson]]
    simp only [jsize, List.length_cons, List.length_append]
    omega
  | .obj [] => by simp [renderJson, jsize]
  | .obj (f :: fs) => by
    have h1 := jfieldSize_le_render f
    have h2 := jflistSize_le_render fs
    rw [show renderJson (.obj (f :: fs)) = '\x7b' :: (renderField f ++ renderObjTail fs)
      by simp [renderJson]]
    simp only [jsize, List.length_cons, List.length_append]
    omega
theorem jfieldSize_le_render : ∀ f : String × Json, jfieldSize f ≤ (renderField f).length
  | (k, v) => by
    have h1 := jsize_le_render v
    rw [show renderField (k, v) = '"' :: (escapeChars k.data ++ ['"', ':'] ++ renderJson v)
      by simp [renderField]]
    simp only [jfieldSize, List.length_cons, List.length_append]
    omega
theorem jlistSize_le_render : ∀ xs : List Json, jlistSize xs ≤ (renderArrTail xs).length
  | [] => by simp [renderArrTail, jlistSize]
  | x :: xs => by
    have h1 := jsize_le_render x
    have h2 := jlistSize_le_render xs
    rw [show renderArrTail (x :: xs) = ',' :: (renderJson x ++ renderArrTail xs)
      by simp [renderArrTail]]
    simp only [jlistSize, List.length_cons, List.length_append]
    omega
theorem jflistSize_le_render : ∀ fs : List (String × Json),
    jflistSize fs ≤ (renderObjTail fs).length
  | [] => by simp [renderObjTail, jflistSize]
  | f :: fs => by
    have h1 := jfieldSize_le_render f
    have h2 := jflistSize_le_render fs
    rw [show renderObjTail (f :: fs) = ',' :: (renderField f ++ renderObjTail fs)
      by simp [renderObjTail]]
    simp only [jflistSize, List.length_cons, List.length_append]
    omega
end

theorem parseLineJson_render (j : Json) : parseLineJson (renderJson j) = some j := by
  have hb := jsize_le_render j
  have h := parseJson_render j ((renderJson j).length + 1) [] (by omega) (by simp [headSat])
  rw [List.append_nil] at h
  simp [parseLineJson, h]

theorem joinNl_cons_ex (l : List Char) (ls : List (List Char)) :
    ∃ t, joinNl (l :: ls) = l ++ t := by
  cases ls with
  | nil => exact ⟨[], by simp [joinNl]⟩
  | cons l2 ls => exact ⟨'\n' :: joinNl (l2 :: ls), by simp [joinNl]⟩

theorem joinNl_last : ∀ ls : List (List Char), ls ≠ [] →
    (∀ l ∈ ls, ∃ cs, l = cs ++ ['\x7d']) → ∃ cs, joinNl ls = cs ++ ['\x7d']
  | [], h, _ => absurd rfl h
  | [l], _, hl => by
    obtain ⟨cs, hcs⟩ := hl l (by simp)
    exact ⟨cs, by simp [joinNl, hcs]⟩
  | l :: l2 :: ls, _, hl => by
    obtain ⟨cs, hcs⟩ := joinNl_last (l2 :: ls) (by simp) (fun x hx => hl x (by simp [hx]))
    exact ⟨l ++ '\n' :: cs, by simp [joinNl, hcs]⟩

/-- Decoding the encoded interchange text of any sequence of work items
yields the sequence back, field for field and in order. -/
theorem decodeChars_encodeChars (items : List WorkItem) :
    decodeChars (encodeChars items) = some items := by
  cases items with
  | nil => rfl
  | cons i is =>
    obtain ⟨body1, hb1, cs1, hl1⟩ := renderItem_shape i
    obtain ⟨t, ht⟩ := joinNl_cons_ex (renderJson (itemToJson i))
      (is.map fun x => renderJson (itemToJson x))
    have hu : joinNl ((i :: is).map fun x => renderJson (itemToJson x))
        = '\x7b' :: (body1 ++ t) := by
      simp only [List.map_cons]
      rw [ht, hb1]
      simp
    have hlastp : ∀ l ∈ (i :: is).map fun x => renderJson (itemToJson x),
        ∃ cs, l = cs ++ ['\x7d'] := by
      intro l hlmem
      simp only [List.mem_map] at hlmem
      obtain ⟨x, _, hx⟩ := hlmem
      obtain ⟨_, _, cs, hcs⟩ := renderItem_shape x
      exact ⟨cs, by rw [← hx, hcs]⟩
    obtain ⟨cs, hcs⟩ := joinNl_last ((i :: is).map fun x => renderJson (itemToJson x))
      (by simp) hlastp
    have hcne : joinNl ((i :: is).map fun x => renderJson (itemToJson x)) ≠ [] := by
      rw [hu]; simp
    have henc : encodeChars (i :: is)
        = joinNl ((i :: is).map fun x => renderJson (itemToJson x)) ++ ['\n'] := by
      simp only [encodeChars]
      rw [if_neg hcne]
    have htrim : trimChars (joinNl ((i :: is).map fun x => renderJson (itemToJson x)) ++ ['\n'])
        = joinNl ((i :: is).map fun x => renderJson (itemToJson x)) :=
      trimChars_wrap _ '\x7b' '\x7d' (body1 ++ t) cs hu (by decide) hcs (by decide)
    have hnl : ∀ l ∈ (i :: is).map fun x => renderJson (itemToJson x), '\n' ∉ l := by
      intro l hlmem
      simp only [List.mem_map] at hlmem
      obtain ⟨x, _, hx⟩ := hlmem
      rw [← hx]
      exact renderJson_no_nl (itemToJson x)
    have hsplit : splitNl (joinNl ((i :: is).map fun x => renderJson (itemToJson x)))
        = (i :: is).map fun x => renderJson (itemToJson x) :=
      splitNl_joinNl _ (by simp) hnl
    have hlines : (i :: is).map (fun x => renderJson (itemToJson x))
        = ((i :: is).map itemToJson).map renderJson := by simp
    have hmap1 : mapOpt parseLineJson ((i :: is).map fun x => renderJson (itemToJson x))
        = some ((i :: is).map itemToJson) := by
      rw [hlines]
      exact mapOpt_map_eq parseLineJson renderJson _ (fun x _ => parseLineJson_render x)
    have hmap2 : mapOpt jsonToItem ((i :: is).map itemToJson) = some (i :: is) :=
      mapOpt_map_eq jsonToItem itemToJson _ (fun x _ => jsonToItem_itemToJson x)
    rw [henc]
    simp only [List.map_cons] at htrim hcne hsplit hmap1 hmap2
    simp [decodeChars, decodeJsonLines, htrim, hcne, hsplit, hmap1, hmap2]

/-! ## SQLite `CAST`, id padding, the ID allocator -/

/-- SQLite `CAST(x AS INTEGER)`: skip leading whitespace, optional sign,
value of the longest digit prefix (no digits means 0). -/
def castIdChars (cs : List Char) : Int :=
  match cs.dropWhile isWsChar with
  | [] => 0
  | c :: rest =>
    if c = '-' then -(digitsVal (rest.takeWhile isDigitChar) : Int)
    else if c = '+' then (digitsVal (rest.takeWhile isDigitChar) : Int)
    else (digitsVal ((c :: rest).takeWhile isDigitChar) : Int)

/-- Numeric value of an id string, as SQLite casts it. -/
def castId (s : String) : Int := castIdChars s.data

/-- `String.prototype.padStart(3, "0")`. -/
def padStart3 (s : String) : String :=
  ⟨List.replicate (3 - s.data.length) '0' ++ s.data⟩

/-- `padId` from src/work.ts: lookups left-zero-pad their id argument, so
callers may type `1` or `001` interchangeably. -/
def padId (s : String) : String := padStart3 s

/-- JS `String(n)` for an integer. -/
def intToString (n : Int) : String := ⟨intChars n⟩

/-- `SELECT MAX(CAST(id AS INTEGER))`, with `row?.maxId || 0` turning the
empty table's NULL into 0. -/
def maxNumericId (store : List WorkItem) : Int :=
  match store with
  | [] => 0
  | i :: rest => rest.foldl (fun m x => max m (castId x.id)) (castId i.id)

/-- `nextId` from src/work.ts: `String(maxId + 1).padStart(3, "0")`. -/
def nextId (store : List WorkItem) : String :=
  padStart3 (intToString (maxNumericId store + 1))

/-! ## Orderings used by the queries -/

/-- The `ORDER BY CAST(id AS INTEGER)` key. -/
def idLe (a b : WorkItem) : Prop := castId a.id ≤ castId b.id

instance : DecidableRel idLe := fun a b => by unfold idLe; infer_instance

instance : IsTotal WorkItem idLe := ⟨fun a b => by unfold idLe; omega⟩

instance : IsTrans WorkItem idLe := ⟨fun a b c => by unfold idLe; omega⟩

/-- Table contents in ascending numeric id order (a stable sort models
the deterministic order SQLite produces for the export query). -/
def sortById (store : List WorkItem) : List WorkItem := store.insertionSort idLe

/-- The `ORDER BY priority, CAST(id AS INTEGER)` key. -/
def priorityIdLe (a b : WorkItem) : Prop :=
  a.priority < b.priority ∨ (a.priority = b.priority ∧ castId a.id ≤ castId b.id)

instance : DecidableRel priorityIdLe := fun a b => by unfold priorityIdLe; infer_instance

instance : IsTotal WorkItem priorityIdLe := ⟨fun a b => by unfold priorityIdLe; omega⟩

instance : IsTrans WorkItem priorityIdLe := ⟨fun a b c => by unfold priorityIdLe; omega⟩

/-- Result order of `list`, `ready` and `blocked`. -/
def sortByPriorityId (l : List WorkItem) : List WorkItem := l.insertionSort priorityIdLe

/-! ## The store, the interchange file, and the mutating commands -/

/-- Command-visible state: the relational store's rows (in table order)
and the interchange file's contents (`none` = file absent). -/
structure State where
  store : List WorkItem
  file : Option String
deriving Repr, DecidableEq, Inhabited

/-- Typed failures of the command layer; each corresponds to a
`console.error` + `process.exit(1)` site in src/work.ts.
`insertFailed` carries the partially replaced table an aborted `import`
leaves behind (the DELETE and each INSERT auto-commit separately). -/
inductive CmdErr where
  | usage
  | notFound
  | unknownField
  | noFile
  | corrupt
  | insertFailed (partialStore : List WorkItem)
deriving Repr, DecidableEq

/-- `SELECT * FROM work WHERE id = ?` with the padded id. -/
def findItem (store : List WorkItem) (id : String) : Option WorkItem :=
  store.find? fun i => i.id == padId id

/-- `UPDATE work SET ... WHERE id = ?`: every row with the padded id. -/
def updateItem (store : List WorkItem) (id : String) (f : WorkItem → WorkItem) :
    List WorkItem :=
  store.map fun i => if i.id == padId id then f i else i

/-- `exportToJsonl`: the full store, ordered by ascending numeric id,
one JSON record per line. -/
def exportFile (store : List WorkItem) : String := encode (sortById store)

/-- `x || null` (and `row.x || undefined`): an empty string collapses to
absent.  The store is modelled at the record level `rowToWorkItem`
produces, so the coercion applies where the code writes a raw value. -/
def normOpt : Option String → Option String
  | some s => if s = "" then none else some s
  | none => none

/-- The `add` command: insert a fresh row, then export. -/
def addCmd (st : State) (title : String) (priority : Int) (ty : String) (nowTs : String) :
    Except CmdErr State :=
  if title = "" then .error .usage
  else
    let item : WorkItem :=
      { id := nextId st.store, title := title, status := "open", priority := priority,
        type := ty, created := nowTs, updated := nowTs, description := none,
        blocked_by := none, labels := none, closed_reason := none, log := none,
        author := none, assignee := none }
    let store' := st.store ++ [item]
    .ok { store := store', file := some (exportFile store') }

/-- The `start` command: status to `in_progress`, then export. -/
def startCmd (st : State) (id : String) (nowTs : String) : Except CmdErr State :=
  if id = "" then .error .usage
  else
    match findItem st.store id with
    | none => .error .notFound
    | some _ =>
      let store' := updateItem st.store id fun i =>
        { i with status := "in_progress", updated := nowTs }
      .ok { store := store', file := some (exportFile store') }

/-- The `close` command: status to `closed`, `closed_reason` overwritten
with the joined reason arguments or NULL — no precondition on the current
status — then export. -/
def closeCmd (st : State) (id : String) (reason : Option String) (nowTs : String) :
    Except CmdErr State :=
  if id = "" then .error .usage
  else
    match findItem st.store id with
    | none => .error .notFound
    | some _ =>
      let store' := updateItem st.store id fun i =>
        { i with status := "closed", updated := nowTs, closed_reason := normOpt reason }
      .ok { store := store', file := some (exportFile store') }

/-- The `reopen` command: status to `open`, `closed_reason` cleared. -/
def reopenCmd (st : State) (id : String) (nowTs : String) : Except CmdErr State :=
  if id = "" then .error .usage
  else
    match findItem st.store id with
    | none => .error .notFound
    | some _ =>
      let store' := updateItem st.store id fun i =>
        { i with status := "open", updated := nowTs, closed_reason := none }
      .ok { store := store', file := some (exportFile store') }

/-- The `log` command: append an entry; the agent flag is dropped when
empty (`if (agentFlag)`). -/
def logCmd (st : State) (id msg : String) (agentFlag : Option String) (nowTs : String) :
    Except CmdErr State :=
  if id = "" || msg = "" then .error .usage
  else
    match findItem st.store id with
    | none => .error .notFound
    | some _ =>
      let agent := match agentFlag with
        | some a => if a = "" then none else some a
        | none => none
      let store' := updateItem st.store id fun i =>
        { i with log := some ((i.log.getD []) ++ [⟨nowTs, agent, msg⟩]), updated := nowTs }
      .ok { store := store', file := some (exportFile store') }

/-- The `block` command: both ids must exist; an already-present blocker
is a reported no-op (no update, no export); otherwise append and export. -/
def blockCmd (st : State) (id blockerId : String) (nowTs : String) : Except CmdErr State :=
  if id = "" || blockerId = "" then .error .usage
  else
    match findItem st.store id with
    | none => .error .notFound
    | some row =>
      match findItem st.store blockerId with
      | none => .error .notFound
      | some _ =>
        let bb := row.blocked_by.getD []
        let pb := padId blockerId
        if pb ∈ bb then .ok st
        else
          let store' := updateItem st.store id fun i =>
            { i with blocked_by := some (bb ++ [pb]), updated := nowTs }
          .ok { store := store', file := some (exportFile store') }

/-- The `unblock` command: only the blocked id must exist; a missing
blocker entry is a reported no-op; removing the last blocker clears the
column to NULL (`blockedBy.length ? JSON.stringify(blockedBy) : null`). -/
def unblockCmd (st : State) (id blockerId : String) (nowTs : String) : Except CmdErr State :=
  if id = "" || blockerId = "" then .error .usage
  else
    match findItem st.store id with
    | none => .error .notFound
    | some row =>
      let bb := row.blocked_by.getD []
      let pb := padId blockerId
      if pb ∉ bb then .ok st
      else
        let bb' := bb.erase pb
        let store' := updateItem st.store id fun i =>
          { i with blocked_by := if bb'.isEmpty then none else some bb', updated := nowTs }
        .ok { store := store', file := some (exportFile store') }

/-- `parseInt(value, 10)` for the priority edit (digit-prefix value; the
`NaN` corner for non-numeric input is outside the claims). -/
def parsePriority (s : String) : Int := castIdChars s.data

/-- Modelled from the spec: the `edit` field whitelist
{title, priority, type, description, author, assignee} of §6; the
`work.ts` under src/ carries only the first four (no author/assignee
columns), while the spec table and the repository's tests
(work-extended.test.ts) include all six. -/
def validFields : List String :=
  ["title", "priority", "type", "description", "author", "assignee"]

/-- Apply one field edit to an item. -/
def applyEdit (field value : String) (i : WorkItem) : WorkItem :=
  if field = "title" then { i with title := value }
  else if field = "priority" then { i with priority := parsePriority value }
  else if field = "type" then { i with type := value }
  else if field = "description" then { i with description := some value }
  else if field = "author" then { i with author := some value }
  else if field = "assignee" then { i with assignee := some value }
  else i

/-- The `edit` command: not-found is checked before the field whitelist;
a valid edit refreshes `updated` and exports. -/
def editCmd (st : State) (id field value : String) (nowTs : String) : Except CmdErr State :=
  if id = "" || field = "" || value = "" then .error .usage
  else
    match findItem st.store id with
    | none => .error .notFound
    | some _ =>
      if validFields.contains field then
        let store' := updateItem st.store id fun i =>
          { applyEdit field value i with updated := nowTs }
        .ok { store := store', file := some (exportFile store') }
      else .error .unknownField

/-! ## The import path (Sync Engine) -/

/-- Outcome of the `import` command, carrying the state it leaves behind:
the DELETE and every INSERT auto-commit separately, so a failing insert
leaves the partially refilled table on disk. -/
inductive ImportOut where
  | noFile (st : State)
  | nothingToImport (st : State)
  | corrupt (st : State)
  | insertFailed (st : State)
  | imported (st : State) (count : Nat)
deriving Repr, DecidableEq

/-- The `|| null` coercions `import` applies when binding a decoded
record's optional string columns. -/
def normImport (i : WorkItem) : WorkItem :=
  { i with
    description := normOpt i.description
    closed_reason := normOpt i.closed_reason
    author := normOpt i.author
    assignee := normOpt i.assignee }

/-- One `stmt.run(...)`: the typed read of the record (a mis-shaped record
fails at binding) and the `id` PRIMARY KEY constraint against the rows
inserted since the DELETE. -/
def insertOne (acc : List WorkItem) (j : Json) : Option (List WorkItem) :=
  match jsonToItem j with
  | none => none
  | some it =>
    if (acc.map fun x => x.id).contains it.id then none
    else some (acc ++ [normImport it])

/-- The insert loop of `import`; on a failure the accumulator so far is
what remains committed. -/
def insertAll (acc : List WorkItem) : List Json → List WorkItem × Bool
  | [] => (acc, true)
  | j :: js =>
    match insertOne acc j with
    | some acc' => insertAll acc' js
    | none => (acc, false)

/-- The `import` command of src/work.ts: a missing file is an error; an
empty (after trim) file is reported as nothing to import and touches
nothing; otherwise every line is `JSON.parse`d (a failure here happens
before the DELETE), the table is cleared and the records inserted in file
order; no export afterwards. -/
def runImport (st : State) : ImportOut :=
  match st.file with
  | none => .noFile st
  | some content =>
    if trimChars content.data = [] then .nothingToImport st
    else
      match decodeJsonLines content.data with
      | none => .corrupt st
      | some js =>
        match insertAll [] js with
        | (acc, true) => .imported { store := acc, file := st.file } js.length
        | (acc, false) => .insertFailed { store := acc, file := st.file }

/-! ## The dependency engine (`ready` / `blocked`) -/

/-- `SELECT id FROM work WHERE status = 'closed'`. -/
def closedIds (store : List WorkItem) : List String :=
  (store.filter fun i => i.status == "closed").map fun i => i.id

/-- The readiness test of the `ready` command: unblocked, or every
blocker id is in the closed set (a dangling blocker id is never in it). -/
def isReadyIn (store : List WorkItem) (i : WorkItem) : Bool :=
  match i.blocked_by with
  | none => true
  | some bb => bb.isEmpty || bb.all fun b => (closedIds store).contains b

/-- The `ready` query: non-closed items, ordered by priority then numeric
id, filtered to those with no open blockers. -/
def readyCmd (store : List WorkItem) : List WorkItem :=
  (sortByPriorityId (store.filter fun i => !(i.status == "closed"))).filter (isReadyIn store)

/-- The still-open subset of an item's blockers, as `blocked` reports it. -/
def openBlockers (store : List WorkItem) (i : WorkItem) : List String :=
  (i.blocked_by.getD []).filter fun b => !(closedIds store).contains b

/-- The `blocked` query: non-closed items with a non-NULL `blocked_by`,
ordered, filtered to those with at least one open blocker, each paired
with its open blockers. -/
def blockedCmd (store : List WorkItem) : List (WorkItem × List String) :=
  ((sortByPriorityId (store.filter fun i => !(i.status == "closed") && i.blocked_by.isSome)).filter
    fun i => !(i.blocked_by.getD []).isEmpty &&
      (i.blocked_by.getD []).any fun b => !(closedIds store).contains b).map
    fun i => (i, openBlockers store i)

/-! ## The `list` command and the label/claim surface -/

/-- Modelled from the spec: the `list` filters of §4.3
(status, type, author, assignee, label), applied conjunctively; with no
status filter, closed items are excluded.  The `work.ts` under src/
implements only the status filter; the remaining filters are specified in
§4.3/§6 and exercised by the repository's tests. -/
structure ListFilters where
  status : Option String
  type : Option String
  author : Option String
  assignee : Option String
  label : Option String
deriving Repr, DecidableEq, Inhabited

/-- No filters supplied. -/
def noFilters : ListFilters := ⟨none, none, none, none, none⟩

/-- Modelled from the spec: the conjunctive filter predicate of §4.3. -/
def matchesFilters (f : ListFilters) (i : WorkItem) : Bool :=
  (match f.status with
   | some s => i.status == s
   | none => !(i.status == "closed")) &&
  (match f.type with
   | some t => i.type == t
   | none => true) &&
  (match f.author with
   | some a => i.author == some a
   | none => true) &&
  (match f.assignee with
   | some a => i.assignee == some a
   | none => true) &&
  (match f.label with
   | some l => (i.labels.getD []).contains l
   | none => true)

/-- Modelled from the spec: `list` filters conjunctively and orders by
ascending priority with ties broken by ascending numeric id (§4.3). -/
def listCmd (store : List WorkItem) (f : ListFilters) : List WorkItem :=
  sortByPriorityId (store.filter (matchesFilters f))

/-- Modelled from the spec: the `label` command (§6, work.test.ts):
`NotFoundError` when the id is absent, duplicate labels rejected as a
reported no-op, otherwise append the label and export. -/
def labelCmd (st : State) (id lbl : String) (nowTs : String) : Except CmdErr State :=
  if id = "" || lbl = "" then .error .usage
  else
    match findItem st.store id with
    | none => .error .notFound
    | some row =>
      if (row.labels.getD []).contains lbl then .ok st
      else
        let store' := updateItem st.store id fun i =>
          { i with labels := some ((row.labels.getD []) ++ [lbl]), updated := nowTs }
        .ok { store := store', file := some (exportFile store') }

/-- Modelled from the spec: the `unlabel` command: `NotFoundError` when
the id is absent, a missing label is a reported no-op, removal of the
last label clears the set to absent. -/
def unlabelCmd (st : State) (id lbl : String) (nowTs : String) : Except CmdErr State :=
  if id = "" || lbl = "" then .error .usage
  else
    match findItem st.store id with
    | none => .error .notFound
    | some row =>
      if !(row.labels.getD []).contains lbl then .ok st
      else
        let ls := (row.labels.getD []).erase lbl
        let store' := updateItem st.store id fun i =>
          { i with labels := if ls.isEmpty then none else some ls, updated := nowTs }
        .ok { store := store', file := some (exportFile store') }

/-- Modelled from the spec: the `labels` command, the global distinct
label listing. -/
def labelsCmd (store : List WorkItem) : List String :=
  (store.foldr (fun i acc => i.labels.getD [] ++ acc) []).dedup

/-- Modelled from the spec: the `claim` command sets the assignee;
`NotFoundError` when the id is absent. -/
def claimCmd (st : State) (id agent : String) (nowTs : String) : Except CmdErr State :=
  if id = "" || agent = "" then .error .usage
  else
    match findItem st.store id with
    | none => .error .notFound
    | some _ =>
      let store' := updateItem st.store id fun i =>
        { i with assignee := some agent, updated := nowTs }
      .ok { store := store', file := some (exportFile store') }

/-- Modelled from the spec: the `unclaim` command clears the assignee;
`NotFoundError` when the id is absent. -/
def unclaimCmd (st : State) (id : String) (nowTs : String) : Except CmdErr State :=
  if id = "" then .error .usage
  else
    match findItem st.store id with
    | none => .error .notFound
    | some _ =>
      let store' := updateItem st.store id fun i =>
        { i with assignee := none, updated := nowTs }
      .ok { store := store', file := some (exportFile store') }

/-- Modelled from the spec: the `mine` command filters by assignee. -/
def mineCmd (store : List WorkItem) (agent : String) : List WorkItem :=
  sortByPriorityId (store.filter fun i => i.assignee == some agent)

/-- The command surface: the dispatcher's table of command names.  The
base names are those of src/work.ts's `commands` record; the label and
claim families are modelled from the spec's command table (§6) and the
repository's tests. -/
def commandNames : List String :=
  ["init", "add", "list", "show", "start", "close", "reopen", "log", "block", "unblock",
   "ready", "blocked", "edit", "import", "export", "help",
   "label", "unlabel", "labels", "claim", "unclaim", "mine"]

/-! ## The unified mutating-command step (for the consistency contract) -/

/-- The mutating commands named by the consistency contract. -/
inductive Cmd where
  | add (title : String) (priority : Int) (ty : String)
  | start (id : String)
  | close (id : String) (reason : Option String)
  | reopen (id : String)
  | edit (id field value : String)
  | log (id msg : String) (agentFlag : Option String)
  | block (id blockerId : String)
  | unblock (id blockerId : String)
  | imp
deriving Repr, DecidableEq

/-- Run one mutating command. -/
def runCmd (c : Cmd) (st : State) (nowTs : String) : Except CmdErr State :=
  match c with
  | .add t p ty => addCmd st t p ty nowTs
  | .start id => startCmd st id nowTs
  | .close id r => closeCmd st id r nowTs
  | .reopen id => reopenCmd st id nowTs
  | .edit id f v => editCmd st id f v nowTs
  | .log id m a => logCmd st id m a nowTs
  | .block id b => blockCmd st id b nowTs
  | .unblock id b => unblockCmd st id b nowTs
  | .imp =>
    match runImport st with
    | .noFile _ => .error .noFile
    | .nothingToImport st' => .ok st'
    | .corrupt _ => .error .corrupt
    | .insertFailed st' => .error (.insertFailed st'.store)
    | .imported st' _ => .ok st'

/-- The consistency contract's two sides: decoding the interchange file
yields exactly the store's full contents in ascending numeric id order. -/
def Consistent (st : State) : Prop :=
  ∃ content, st.file = some content ∧ decode content = some (sortById st.store)

/-- Records the `rowToWorkItem` view: an empty string never stands where
the code would have coerced it to undefined/NULL. -/
def ValidItem (i : WorkItem) : Prop :=
  i.description ≠ some "" ∧ i.closed_reason ≠ some "" ∧
    i.author ≠ some "" ∧ i.assignee ≠ some ""

instance (i : WorkItem) : Decidable (ValidItem i) := by unfold ValidItem; infer_instance

/-! ## Properties of the ID allocator -/

theorem digitChars_not_ws (c : Char) (h : c ∈ digitChars) : isWsChar c = false := by
  fin_cases h <;> decide

theorem digitChars_not_plus (c : Char) (h : c ∈ digitChars) : (c = '+') = False := by
  fin_cases h <;> simp

theorem digitsVal_replicate_zero (k : Nat) (ds : List Char) :
    digitsVal (List.replicate k '0' ++ ds) = digitsVal ds := by
  induction k with
  | zero => simp
  | succ k ih =>
    simp only [List.replicate_succ, List.cons_append]
    show List.foldl _ (0 * 10 + digitVal '0') _ = _
    rw [show (0 : Nat) * 10 + digitVal '0' = 0 by decide]
    exact ih

theorem castIdChars_pad_nat (k : Nat) (n : Nat) :
    castIdChars (List.replicate k '0' ++ natChars n) = n := by
  obtain ⟨hne, hmem, hval⟩ := natChars_spec n
  have hall : ∀ c ∈ List.replicate k '0' ++ natChars n, c ∈ digitChars := by
    intro c hc
    rcases List.mem_append.mp hc with h | h
    · rw [List.eq_of_mem_replicate h]; decide
    · exact hmem c h
  have hne2 : List.replicate k '0' ++ natChars n ≠ [] := by
    simp only [ne_eq, List.append_eq_nil]
    rintro ⟨-, h⟩
    exact hne h
  obtain ⟨c, cs, hcs⟩ : ∃ c cs, List.replicate k '0' ++ natChars n = c :: cs := by
    cases hh : List.replicate k '0' ++ natChars n with
    | nil => exact absurd hh hne2
    | cons c cs => exact ⟨c, cs, rfl⟩
  have hcmem : c ∈ digitChars := hall c (by rw [hcs]; simp)
  have hdrop : (List.replicate k '0' ++ natChars n).dropWhile isWsChar
      = List.replicate k '0' ++ natChars n := by
    rw [hcs]
    exact dropWhile_head_false isWsChar c cs (digitChars_not_ws c hcmem)
  have htake : (List.replicate k '0' ++ natChars n).takeWhile isDigitChar
      = List.replicate k '0' ++ natChars n := by
    have := takeWhile_all_append isDigitChar (List.replicate k '0' ++ natChars n) []
      (fun x hx => isDigitChar_of_mem x (hall x hx)) (by simp [headSat])
    simpa using this.1
  rw [castIdChars, hdrop, hcs]
  show (if c = '-' then -(digitsVal (cs.takeWhile isDigitChar) : Int)
    else if c = '+' then (digitsVal (cs.takeWhile isDigitChar) : Int)
    else (digitsVal ((c :: cs).takeWhile isDigitChar) : Int)) = (n : Int)
  rw [if_neg (by simp [(mem_digitChars_ne c hcmem).1]),
    if_neg (by simp [digitChars_not_plus c hcmem])]
  rw [← hcs, htake, digitsVal_replicate_zero, hval]

/-- For a non-negative max, the allocated id casts back to max + 1. -/
theorem castId_nextId (store : List WorkItem) (h : 0 ≤ maxNumericId store) :
    castId (nextId store) = maxNumericId store + 1 := by
  have hpos : ¬(maxNumericId store + 1 < 0) := by omega
  rw [nextId, intToString, castId, padStart3]
  show castIdChars (List.replicate _ '0' ++ intChars (maxNumericId store + 1)) = _
  rw [intChars, if_neg hpos, castIdChars_pad_nat]
  omega

/-- Every character of the allocated id is a decimal digit. -/
theorem nextId_digits (store : List WorkItem) (h : 0 ≤ maxNumericId store) :
    ∀ c ∈ (nextId store).data, c ∈ digitChars := by
  have hpos : ¬(maxNumericId store + 1 < 0) := by omega
  intro c hc
  have hc2 : c ∈ List.replicate (3 - (intChars (maxNumericId store + 1)).length) '0'
      ++ intChars (maxNumericId store + 1) := hc
  rw [intChars, if_neg hpos] at hc2
  rcases List.mem_append.mp hc2 with h2 | h2
  · rw [List.eq_of_mem_replicate h2]; decide
  · exact (natChars_spec _).2.1 c h2

/-- The allocated id is zero-padded to at least width 3. -/
theorem nextId_length (store : List WorkItem) : 3 ≤ (nextId store).data.length := by
  rw [nextId, padStart3]
  show 3 ≤ (List.replicate _ '0' ++ _).length
  simp only [List.length_append, List.length_replicate]
  omega

/-- The running maximum in `maxNumericId`'s fold. -/
def foldMax (a : Int) (l : List WorkItem) : Int :=
  l.foldl (fun m x => max m (castId x.id)) a

theorem foldMax_ge_init (a : Int) (l : List WorkItem) : a ≤ foldMax a l := by
  induction l generalizing a with
  | nil => simp [foldMax]
  | cons x l ih =>
    have h1 := ih (max a (castId x.id))
    have h2 : a ≤ max a (castId x.id) := le_max_left _ _
    calc a ≤ max a (castId x.id) := h2
      _ ≤ foldMax (max a (castId x.id)) l := h1
      _ = foldMax a (x :: l) := rfl

theorem foldMax_ge_mem (a : Int) (l : List WorkItem) :
    ∀ i ∈ l, castId i.id ≤ foldMax a l := by
  induction l generalizing a with
  | nil => simp
  | cons x l ih =>
    intro i hi
    rcases List.mem_cons.mp hi with h | h
    · subst h
      calc castId i.id ≤ max a (castId i.id) := le_max_right _ _
        _ ≤ foldMax (max a (castId i.id)) l := foldMax_ge_init _ _
        _ = foldMax a (i :: l) := rfl
    · exact ih (max a (castId x.id)) i h

theorem foldMax_cases (a : Int) (l : List WorkItem) :
    foldMax a l = a ∨ ∃ i ∈ l, foldMax a l = castId i.id := by
  induction l generalizing a with
  | nil => exact Or.inl rfl
  | cons x l ih =>
    rcases ih (max a (castId x.id)) with h | ⟨i, hi, h⟩
    · rcases le_or_lt a (castId x.id) with h2 | h2
      · exact Or.inr ⟨x, by simp, by rw [show foldMax a (x :: l) = foldMax (max a (castId x.id)) l from rfl, h]; omega⟩
      · exact Or.inl (by rw [show foldMax a (x :: l) = foldMax (max a (castId x.id)) l from rfl, h]; omega)
    · exact Or.inr ⟨i, by simp [hi], h⟩

theorem le_maxNumericId (store : List WorkItem) :
    ∀ i ∈ store, castId i.id ≤ maxNumericId store := by
  intro i hi
  cases store with
  | nil => simp at hi
  | cons x l =>
    rcases List.mem_cons.mp hi with h | h
    · subst h
      exact foldMax_ge_init (castId i.id) l
    · exact foldMax_ge_mem (castId x.id) l i h

theorem maxNumericId_attained (store : List WorkItem) (h : store ≠ []) :
    ∃ i ∈ store, maxNumericId store = castId i.id := by
  cases store with
  | nil => exact absurd rfl h
  | cons x l =>
    rcases foldMax_cases (castId x.id) l with h2 | ⟨i, hi, h2⟩
    · exact ⟨x, by simp, h2⟩
    · exact ⟨i, by simp [hi], h2⟩

/-- `MAX` only depends on the set of rows, not their order. -/
theorem maxNumericId_perm (s t : List WorkItem) (h : s.Perm t) :
    maxNumericId s = maxNumericId t := by
  cases hs : s with
  | nil =>
    cases ht : t with
    | nil => rfl
    | cons y l =>
      subst hs; subst ht
      exact absurd h.symm.eq_nil (by simp)
  | cons x l =>
    cases ht : t with
    | nil =>
      subst hs; subst ht
      exact absurd h.eq_nil (by simp)
    | cons y m =>
      subst hs; subst ht
      obtain ⟨i, hi, hieq⟩ := maxNumericId_attained (x :: l) (by simp)
      obtain ⟨j, hj, hjeq⟩ := maxNumericId_attained (y :: m) (by simp)
      have h1 : castId i.id ≤ maxNumericId (y :: m) :=
        le_maxNumericId _ i (h.mem_iff.mp hi)
      have h2 : castId j.id ≤ maxNumericId (x :: l) :=
        le_maxNumericId _ j (h.mem_iff.mpr hj)
      omega

/-- Appending one row updates `MAX` as expected. -/
theorem maxNumericId_append_one (s : List WorkItem) (i : WorkItem) (h : 0 ≤ castId i.id) :
    maxNumericId (s ++ [i]) = max (maxNumericId s) (castId i.id) := by
  cases s with
  | nil =>
    show castId i.id = max (maxNumericId []) (castId i.id)
    show castId i.id = max 0 (castId i.id)
    omega
  | cons x l =>
    show foldMax (castId x.id) (l ++ [i]) = _
    have : ∀ (a : Int) (l : List WorkItem), foldMax a (l ++ [i]) = max (foldMax a l) (castId i.id) := by
      intro a l
      induction l generalizing a with
      | nil => simp [foldMax]
      | cons y l ih => exact ih (max a (castId y.id))
    rw [this]
    rfl

theorem normOpt_eq_of_ne (r : Option String) (h : r ≠ some "") : normOpt r = r := by
  cases r with
  | none => rfl
  | some s =>
    have hs : ¬(s = "") := fun he => h (by rw [he])
    simp [normOpt, hs]

/-- A sample item used to instantiate the universally quantified theorems. -/
def mkItem (id status : String) (priority : Int) : WorkItem :=
  { id := id, title := "t", status := status, priority := priority, type := "task",
    created := "tc", updated := "tu", description := none, blocked_by := none,
    labels := none, closed_reason := none, log := none, author := none, assignee := none }

/-- C4: `nextId` is max existing numeric id plus one, zero-padded to
width 3; "001" on the empty store; order-independent; allocated ids are
strictly above every existing id, hence never reused, and one `add`
advances the allocator by exactly one. -/
theorem c4_next_id_allocator :
    nextId [] = "001"
    ∧ (∀ store : List WorkItem, 0 ≤ maxNumericId store →
        castId (nextId store) = maxNumericId store + 1
        ∧ (∀ c ∈ (nextId store).data, c ∈ digitChars)
        ∧ 3 ≤ (nextId store).data.length)
    ∧ (∀ s t : List WorkItem, s.Perm t → nextId s = nextId t)
    ∧ (∀ store : List WorkItem, 0 ≤ maxNumericId store →
        ∀ i ∈ store, castId i.id < castId (nextId store))
    ∧ (∀ store : List WorkItem, 0 ≤ maxNumericId store →
        nextId store ∉ store.map fun i => i.id)
    ∧ (∀ (st st' : State) (title : String) (p : Int) (ty nowTs : String),
        0 ≤ maxNumericId st.store → addCmd st title p ty nowTs = .ok st' →
        castId (nextId st'.store) = castId (nextId st.store) + 1) := by
  have base : ∀ store : List WorkItem, 0 ≤ maxNumericId store →
      ∀ i ∈ store, castId i.id < castId (nextId store) := by
    intro store h i hi
    rw [castId_nextId store h]
    have := le_maxNumericId store i hi
    omega
  refine ⟨by decide, fun store h => ⟨castId_nextId store h, nextId_digits store h,
    nextId_length store⟩, ?_, base, ?_, ?_⟩
  · intro s t hperm
    unfold nextId
    rw [maxNumericId_perm s t hperm]
  · intro store h hmem
    simp only [List.mem_map] at hmem
    obtain ⟨i, hi, hid⟩ := hmem
    have := base store h i hi
    rw [← hid] at this
    omega
  · intro st st' title p ty nowTs h hok
    by_cases ht : title = ""
    · rw [addCmd, if_pos ht] at hok; cases hok
    · rw [addCmd, if_neg ht] at hok
      have hst : st'.store = st.store ++
          [{ id := nextId st.store, title := title, status := "open", priority := p,
             type := ty, created := nowTs, updated := nowTs, description := none,
             blocked_by := none, labels := none, closed_reason := none, log := none,
             author := none, assignee := none }] := by
        cases hok; rfl
      have hnew : castId (nextId st.store) = maxNumericId st.store + 1 := castId_nextId st.store h
      have hmax : maxNumericId st'.store = maxNumericId st.store + 1 := by
        rw [hst, maxNumericId_append_one _ _ (by rw [hnew]; omega)]
        show max (maxNumericId st.store) (castId (nextId st.store)) = _
        rw [hnew]
        omega
      rw [castId_nextId st'.store (by omega), hmax, hnew]

/-- C4 witness: concrete instantiations of the quantified parts. -/
theorem c4_next_id_allocator_witness :
    (0 ≤ maxNumericId [mkItem "007" "open" 2]
      ∧ castId (nextId [mkItem "007" "open" 2]) = maxNumericId [mkItem "007" "open" 2] + 1)
    ∧ ([mkItem "007" "open" 2].Perm [mkItem "007" "open" 2]
      ∧ nextId [mkItem "007" "open" 2] = nextId [mkItem "007" "open" 2]) := by
  refine ⟨⟨by decide, (c4_next_id_allocator.2.1 [mkItem "007" "open" 2] (by decide)).1⟩,
    List.Perm.refl _, c4_next_id_allocator.2.2.1 _ _ (List.Perm.refl _)⟩

/-- C10: a successful `close` of any present item — regardless of current
status — always overwrites `closed_reason`: to the given reason when
supplied, to NULL when not, erasing any previously stored reason. -/
theorem c10_close_overwrites_closed_reason :
    ∀ (st : State) (id : String) (reason : Option String) (nowTs : String),
      id ≠ "" → (findItem st.store id).isSome → reason ≠ some "" →
      ∃ st', closeCmd st id reason nowTs = Except.ok st'
        ∧ (∃ j ∈ st'.store, j.id = padId id)
        ∧ ∀ j ∈ st'.store, j.id = padId id → j.status = "closed" ∧ j.closed_reason = reason := by
  intro st id reason nowTs hid hsome hr
  obtain ⟨row, hrow⟩ := Option.isSome_iff_exists.mp hsome
  have hrowid : row.id = padId id := by
    have := List.find?_some hrow
    simpa [beq_iff_eq] using this
  have hrowmem : row ∈ st.store := List.mem_of_find?_eq_some hrow
  refine ⟨_, by rw [closeCmd, if_neg hid, hrow], ?_, ?_⟩
  · refine ⟨{ row with status := "closed", updated := nowTs, closed_reason := normOpt reason },
      ?_, hrowid⟩
    simp only [updateItem, List.mem_map]
    exact ⟨row, hrowmem, by rw [if_pos (by simp [hrowid])]⟩
  · intro j hj hjid
    simp only [updateItem, List.mem_map] at hj
    obtain ⟨i, hi, hij⟩ := hj
    by_cases hcase : i.id == padId id
    · rw [if_pos hcase] at hij
      rw [← hij]
      exact ⟨rfl, normOpt_eq_of_ne reason hr⟩
    · rw [if_neg hcase] at hij
      exact absurd (by rw [hij, hjid]; simp : (i.id == padId id) = true) hcase

/-- C10 witness: re-closing an already-closed item without a reason
erases the stored reason. -/
theorem c10_close_overwrites_closed_reason_witness :
    ∃ st', closeCmd ⟨[{ mkItem "001" "closed" 2 with closed_reason := some "old" }], none⟩
        "001" none "t9" = Except.ok st'
      ∧ (∃ j ∈ st'.store, j.id = padId "001")
      ∧ ∀ j ∈ st'.store, j.id = padId "001" → j.status = "closed" ∧ j.closed_reason = none :=
  c10_close_overwrites_closed_reason
    ⟨[{ mkItem "001" "closed" 2 with closed_reason := some "old" }], none⟩
    "001" none "t9" (by decide) (by decide) (by decide)

/-! ## Dependency-engine characterisations -/

theorem mem_closedIds (store : List WorkItem) (b : String) :
    b ∈ closedIds store ↔ ∃ j ∈ store, j.id = b ∧ j.status = "closed" := by
  simp only [closedIds, List.mem_map, List.mem_filter, beq_iff_eq]
  constructor
  · rintro ⟨j, ⟨hj, hs⟩, hid⟩; exact ⟨j, hj, hid, hs⟩
  · rintro ⟨j, hj, hid, hs⟩; exact ⟨j, ⟨hj, hs⟩, hid⟩

theorem mem_readyCmd (store : List WorkItem) (i : WorkItem) :
    i ∈ readyCmd store ↔ i ∈ store ∧ i.status ≠ "closed" ∧ isReadyIn store i = true := by
  simp only [readyCmd, List.mem_filter, sortByPriorityId, List.mem_insertionSort,
    Bool.not_eq_true', beq_eq_false_iff_ne, ne_eq]
  tauto

theorem isReadyIn_iff (store : List WorkItem) (i : WorkItem) :
    isReadyIn store i = true
      ↔ (i.blocked_by = none ∨ i.blocked_by = some []
          ∨ ∀ b ∈ i.blocked_by.getD [], b ∈ closedIds store) := by
  cases hbb : i.blocked_by with
  | none => simp [isReadyIn, hbb]
  | some bb =>
    cases bb with
    | nil => simp [isReadyIn, hbb]
    | cons b bs =>
      simp only [isReadyIn, hbb, List.isEmpty_cons, Bool.false_or, List.all_eq_true,
        Option.getD_some, Option.some.injEq, reduceCtorEq, false_or]
      constructor
      · intro h x hx
        have := h x hx
        simpa [List.contains, List.elem_iff] using this
      · intro h x hx
        have := h x hx
        simpa [List.contains, List.elem_iff] using this

theorem mem_blockedCmd (store : List WorkItem) (i : WorkItem) (obs : List String) :
    (i, obs) ∈ blockedCmd store
      ↔ i ∈ store ∧ i.status ≠ "closed" ∧ i.blocked_by.isSome
        ∧ i.blocked_by.getD [] ≠ []
        ∧ (∃ b ∈ i.blocked_by.getD [], b ∉ closedIds store)
        ∧ obs = openBlockers store i := by
  simp only [blockedCmd, List.mem_map, List.mem_filter, sortByPriorityId,
    List.mem_insertionSort, Prod.mk.injEq]
  constructor
  · rintro ⟨x, ⟨⟨hx, hflt⟩, hq⟩, hxi, hobs⟩
    subst hxi
    simp only [Bool.and_eq_true, Bool.not_eq_true', beq_eq_false_iff_ne, ne_eq] at hflt
    simp only [Bool.and_eq_true, Bool.not_eq_true', List.any_eq_true] at hq
    refine ⟨hx, hflt.1, hflt.2, ?_, ?_, hobs.symm⟩
    · intro he
      rw [he] at hq
      simpa using hq.1
    · obtain ⟨b, hb, hbo⟩ := hq.2
      refine ⟨b, hb, fun hmem => ?_⟩
      have hc : (closedIds store).contains b = true := by
        simpa [List.contains, List.elem_iff] using hmem
      rw [hc] at hbo
      cases hbo
  · rintro ⟨hx, hst, hsome, hne, ⟨b, hb, hbo⟩, hobs⟩
    refine ⟨i, ⟨⟨hx, ?_⟩, ?_⟩, rfl, hobs.symm⟩
    · simp [hst, hsome]
    · simp only [Bool.and_eq_true, Bool.not_eq_true', List.any_eq_true]
      refine ⟨by simpa [List.isEmpty_iff] using hne, b, hb, ?_⟩
      cases hcb : (closedIds store).contains b with
      | false => rfl
      | true => exact absurd (by simpa [List.contains, List.elem_iff] using hcb) hbo

theorem mem_openBlockers (store : List WorkItem) (i : WorkItem) (b : String) :
    b ∈ openBlockers store i ↔ b ∈ i.blocked_by.getD [] ∧ b ∉ closedIds store := by
  simp only [openBlockers, List.mem_filter, Bool.not_eq_true']
  constructor
  · rintro ⟨h1, h2⟩
    refine ⟨h1, fun hm => ?_⟩
    have hc : (closedIds store).contains b = true := by
      simpa [List.contains, List.elem_iff] using hm
    rw [hc] at h2
    cases h2
  · rintro ⟨h1, h2⟩
    refine ⟨h1, ?_⟩
    cases hcb : (closedIds store).contains b with
    | false => rfl
    | true => exact absurd (by simpa [List.contains, List.elem_iff] using hcb) h2

/-- C3: readiness and blockedness are decided exactly by the closed-id
set: an item is ready iff `blocked_by` is empty, absent, or entirely
closed; blocked iff some blocker is not closed, reporting exactly the
non-closed blockers; a dangling blocker id keeps an item out of
`ready()` forever. -/
theorem c3_readiness_correctness :
    ∀ (store : List WorkItem) (i : WorkItem), i ∈ store → i.status ≠ "closed" →
      (i ∈ readyCmd store
        ↔ (i.blocked_by = none ∨ i.blocked_by = some []
            ∨ ∀ b ∈ i.blocked_by.getD [], ∃ j ∈ store, j.id = b ∧ j.status = "closed"))
      ∧ ((∃ obs, (i, obs) ∈ blockedCmd store)
        ↔ i.blocked_by.getD [] ≠ []
          ∧ ∃ b ∈ i.blocked_by.getD [], ¬∃ j ∈ store, j.id = b ∧ j.status = "closed")
      ∧ (∀ obs, (i, obs) ∈ blockedCmd store →
          ∀ b, b ∈ obs ↔ b ∈ i.blocked_by.getD []
            ∧ ¬∃ j ∈ store, j.id = b ∧ j.status = "closed")
      ∧ ((∃ b ∈ i.blocked_by.getD [], ∀ j ∈ store, j.id ≠ b) → i ∉ readyCmd store) := by
  intro store i hi hs
  have hready : i ∈ readyCmd store
      ↔ (i.blocked_by = none ∨ i.blocked_by = some []
          ∨ ∀ b ∈ i.blocked_by.getD [], ∃ j ∈ store, j.id = b ∧ j.status = "closed") := by
    rw [mem_readyCmd, isReadyIn_iff]
    have hc : (∀ b ∈ i.blocked_by.getD [], b ∈ closedIds store)
        ↔ (∀ b ∈ i.blocked_by.getD [], ∃ j ∈ store, j.id = b ∧ j.status = "closed") :=
      forall_congr' fun b => imp_congr_right fun _ => mem_closedIds store b
    rw [hc]
    simp [hi, hs]
  refine ⟨hready, ?_, ?_, ?_⟩
  · constructor
    · rintro ⟨obs, hmem⟩
      rw [mem_blockedCmd] at hmem
      obtain ⟨-, -, -, hne, ⟨b, hb, hnc⟩, -⟩ := hmem
      exact ⟨hne, b, hb, fun he => hnc ((mem_closedIds store b).mpr he)⟩
    · rintro ⟨hne, b, hb, hnc⟩
      have hsome : i.blocked_by.isSome := by
        cases hbb : i.blocked_by with
        | none => rw [hbb] at hne; simp at hne
        | some bb => rfl
      exact ⟨openBlockers store i, (mem_blockedCmd store i _).mpr
        ⟨hi, hs, hsome, hne, ⟨b, hb, fun hm => hnc ((mem_closedIds store b).mp hm)⟩, rfl⟩⟩
  · intro obs hmem b
    rw [mem_blockedCmd] at hmem
    obtain ⟨-, -, -, -, -, hobs⟩ := hmem
    rw [hobs, mem_openBlockers]
    exact and_congr_right fun _ => not_congr (mem_closedIds store b)
  · rintro ⟨b, hb, hdangling⟩ hmem
    rcases hready.mp hmem with h | h | h
    · rw [h] at hb; simp at hb
    · rw [h] at hb; simp at hb
    · obtain ⟨j, hj, hjid, -⟩ := h b hb
      exact hdangling j hj hjid

/-- C3 witness: a two-item store where "002" is blocked by open "001". -/
theorem c3_readiness_correctness_witness :
    (mkItem "001" "open" 2 ∈ [mkItem "001" "open" 2,
        { mkItem "002" "open" 2 with blocked_by := some ["001"] }]
      ∧ (mkItem "001" "open" 2).status ≠ "closed")
    ∧ ({ mkItem "002" "open" 2 with blocked_by := some ["001"] }
        ∈ readyCmd [mkItem "001" "open" 2,
          { mkItem "002" "open" 2 with blocked_by := some ["001"] }]
      ↔ ({ mkItem "002" "open" 2 with blocked_by := some ["001"] }.blocked_by = none
        ∨ { mkItem "002" "open" 2 with blocked_by := some ["001"] }.blocked_by = some []
        ∨ ∀ b ∈ ({ mkItem "002" "open" 2 with blocked_by := some ["001"] }.blocked_by).getD [],
            ∃ j ∈ [mkItem "001" "open" 2,
              { mkItem "002" "open" 2 with blocked_by := some ["001"] }],
              j.id = b ∧ j.status = "closed")) := by
  refine ⟨⟨by decide, by decide⟩, ?_⟩
  exact (c3_readiness_correctness _ _ (by decide) (by decide)).1

/-! ## The list filters -/

theorem matchesFilters_iff (f : ListFilters) (i : WorkItem) :
    matchesFilters f i = true
      ↔ (∀ s, f.status = some s → i.status = s)
        ∧ (f.status = none → i.status ≠ "closed")
        ∧ (∀ t, f.type = some t → i.type = t)
        ∧ (∀ a, f.author = some a → i.author = some a)
        ∧ (∀ a, f.assignee = some a → i.assignee = some a)
        ∧ (∀ l, f.label = some l → l ∈ i.labels.getD []) := by
  obtain ⟨s, t, a, g, l⟩ := f
  cases s <;> cases t <;> cases a <;> cases g <;> cases l <;>
    simp [matchesFilters, List.contains, List.elem_iff, and_assoc]

/-- C6: `list` with no status filter returns exactly the non-closed
items; all supplied filters apply conjunctively; the result is sorted
ascending by priority with ties broken by ascending numeric id.  The
type/author/assignee/label filters are modelled from the spec (§4.3). -/
theorem c6_list_filters_ordering :
    (∀ (store : List WorkItem) (i : WorkItem),
      i ∈ listCmd store noFilters ↔ i ∈ store ∧ i.status ≠ "closed")
    ∧ (∀ (store : List WorkItem) (f : ListFilters) (i : WorkItem),
      i ∈ listCmd store f ↔ i ∈ store
        ∧ (∀ s, f.status = some s → i.status = s)
        ∧ (f.status = none → i.status ≠ "closed")
        ∧ (∀ t, f.type = some t → i.type = t)
        ∧ (∀ a, f.author = some a → i.author = some a)
        ∧ (∀ a, f.assignee = some a → i.assignee = some a)
        ∧ (∀ l, f.label = some l → l ∈ i.labels.getD []))
    ∧ (∀ (store : List WorkItem) (f : ListFilters),
      List.Sorted priorityIdLe (listCmd store f)) := by
  have hmem : ∀ (store : List WorkItem) (f : ListFilters) (i : WorkItem),
      i ∈ listCmd store f ↔ i ∈ store
        ∧ (∀ s, f.status = some s → i.status = s)
        ∧ (f.status = none → i.status ≠ "closed")
        ∧ (∀ t, f.type = some t → i.type = t)
        ∧ (∀ a, f.author = some a → i.author = some a)
        ∧ (∀ a, f.assignee = some a → i.assignee = some a)
        ∧ (∀ l, f.label = some l → l ∈ i.labels.getD []) := by
    intro store f i
    rw [show listCmd store f = List.insertionSort priorityIdLe
      (store.filter (matchesFilters f)) from rfl]
    rw [List.mem_insertionSort, List.mem_filter, matchesFilters_iff]
  refine ⟨?_, hmem, ?_⟩
  · intro store i
    rw [hmem store noFilters i]
    simp [noFilters]
  · intro store f
    exact List.sorted_insertionSort priorityIdLe _

/-- C6 witness: membership characterisation at a concrete store. -/
theorem c6_list_filters_ordering_witness :
    mkItem "001" "open" 2 ∈ listCmd [mkItem "001" "open" 2, mkItem "002" "closed" 2] noFilters
      ↔ mkItem "001" "open" 2 ∈ [mkItem "001" "open" 2, mkItem "002" "closed" 2]
        ∧ (mkItem "001" "open" 2).status ≠ "closed" :=
  c6_list_filters_ordering.1 [mkItem "001" "open" 2, mkItem "002" "closed" 2]
    (mkItem "001" "open" 2)

/-! ## The edit field whitelist -/

/-- C7: `edit` fails with `NotFoundError` on an absent id (checked before
the field whitelist); on a present id it fails with `UnknownFieldError`
exactly when the field is outside
{title, priority, type, description, author, assignee}; editing author or
assignee succeeds and stores the value.  The author/assignee fields are
modelled from the spec (§6). -/
theorem c7_edit_fields :
    (∀ (st : State) (id field value nowTs : String),
      id ≠ "" → field ≠ "" → value ≠ "" → findItem st.store id = none →
      editCmd st id field value nowTs = .error .notFound)
    ∧ (∀ (st : State) (id field value nowTs : String),
      id ≠ "" → field ≠ "" → value ≠ "" → (findItem st.store id).isSome →
      (editCmd st id field value nowTs = .error .unknownField
        ↔ ¬(field = "title" ∨ field = "priority" ∨ field = "type" ∨ field = "description"
            ∨ field = "author" ∨ field = "assignee")))
    ∧ (∀ (st : State) (id value nowTs : String),
      id ≠ "" → value ≠ "" → (findItem st.store id).isSome →
      ∃ st', editCmd st id "author" value nowTs = .ok st'
        ∧ ∀ j ∈ st'.store, j.id = padId id → j.author = some value)
    ∧ (∀ (st : State) (id value nowTs : String),
      id ≠ "" → value ≠ "" → (findItem st.store id).isSome →
      ∃ st', editCmd st id "assignee" value nowTs = .ok st'
        ∧ ∀ j ∈ st'.store, j.id = padId id → j.assignee = some value) := by
  refine ⟨?_, ?_, ?_, ?_⟩
  · intro st id field value nowTs hid hf hv hfind
    rw [editCmd, if_neg (by simp [hid, hf, hv]), hfind]
  · intro st id field value nowTs hid hf hv hfind
    obtain ⟨row, hrow⟩ := Option.isSome_iff_exists.mp hfind
    rw [editCmd, if_neg (by simp [hid, hf, hv]), hrow]
    cases hc : validFields.contains field with
    | true =>
      simp only [hc, if_true]
      constructor
      · intro h; cases h
      · intro h
        exact absurd (by simpa [validFields] using (List.elem_iff.mp hc)) h
    | false =>
      simp only [hc]
      constructor
      · intro _ hmem
        have hin : field ∈ validFields := by simp [validFields, hmem]
        have h2 : validFields.contains field = true := List.elem_iff.mpr hin
        rw [h2] at hc
        cases hc
      · intro _; rfl
  · intro st id value nowTs hid hv hfind
    obtain ⟨row, hrow⟩ := Option.isSome_iff_exists.mp hfind
    refine ⟨_, by rw [editCmd, if_neg (by simp [hid, hv]), hrow]; rfl, ?_⟩
    intro j hj hjid
    simp only [updateItem, List.mem_map] at hj
    obtain ⟨i, hi, hij⟩ := hj
    by_cases hcase : i.id == padId id
    · rw [if_pos hcase] at hij
      rw [← hij]
      show (applyEdit "author" value i).author = some value
      simp [applyEdit]
    · rw [if_neg hcase] at hij
      exact absurd (by rw [hij, hjid]; simp : (i.id == padId id) = true) hcase
  · intro st id value nowTs hid hv hfind
    obtain ⟨row, hrow⟩ := Option.isSome_iff_exists.mp hfind
    refine ⟨_, by rw [editCmd, if_neg (by simp [hid, hv]), hrow]; rfl, ?_⟩
    intro j hj hjid
    simp only [updateItem, List.mem_map] at hj
    obtain ⟨i, hi, hij⟩ := hj
    by_cases hcase : i.id == padId id
    · rw [if_pos hcase] at hij
      rw [← hij]
      show (applyEdit "assignee" value i).assignee = some value
      simp [applyEdit]
    · rw [if_neg hcase] at hij
      exact absurd (by rw [hij, hjid]; simp : (i.id == padId id) = true) hcase

/-- C7 witness: editing the author of a present item succeeds. -/
theorem c7_edit_fields_witness :
    ∃ st', editCmd ⟨[mkItem "001" "open" 2], none⟩ "001" "author" "alice" "t1" = .ok st'
      ∧ ∀ j ∈ st'.store, j.id = padId "001" → j.author = some "alice" :=
  c7_edit_fields.2.2.1 ⟨[mkItem "001" "open" 2], none⟩ "001" "alice" "t1"
    (by decide) (by decide) (by decide)

/-- C8: the command surface includes label/unlabel/labels and
claim/unclaim/mine (so none of them is an unknown command), and each
id-targeting member fails with `NotFoundError` when its target id is
absent from the store.  These commands are modelled from the spec's
command table (§6) and the repository's tests. -/
theorem c8_label_claim_surface :
    ("label" ∈ commandNames ∧ "unlabel" ∈ commandNames ∧ "labels" ∈ commandNames
      ∧ "claim" ∈ commandNames ∧ "unclaim" ∈ commandNames ∧ "mine" ∈ commandNames)
    ∧ (∀ (st : State) (id lbl nowTs : String), id ≠ "" → lbl ≠ "" →
        findItem st.store id = none → labelCmd st id lbl nowTs = .error .notFound)
    ∧ (∀ (st : State) (id lbl nowTs : String), id ≠ "" → lbl ≠ "" →
        findItem st.store id = none → unlabelCmd st id lbl nowTs = .error .notFound)
    ∧ (∀ (st : State) (id agent nowTs : String), id ≠ "" → agent ≠ "" →
        findItem st.store id = none → claimCmd st id agent nowTs = .error .notFound)
    ∧ (∀ (st : State) (id nowTs : String), id ≠ "" →
        findItem st.store id = none → unclaimCmd st id nowTs = .error .notFound) := by
  refine ⟨by decide, ?_, ?_, ?_, ?_⟩
  · intro st id lbl nowTs hid hl hfind
    rw [labelCmd, if_neg (by simp [hid, hl]), hfind]
  · intro st id lbl nowTs hid hl hfind
    rw [unlabelCmd, if_neg (by simp [hid, hl]), hfind]
  · intro st id agent nowTs hid ha hfind
    rw [claimCmd, if_neg (by simp [hid, ha]), hfind]
  · intro st id nowTs hid hfind
    rw [unclaimCmd, if_neg (by simp [hid]), hfind]

/-- C8 witness: `label` on an absent id reports not-found. -/
theorem c8_label_claim_surface_witness :
    labelCmd ⟨[mkItem "001" "open" 2], none⟩ "999" "urgent" "t1" = .error .notFound :=
  c8_label_claim_surface.2.1 ⟨[mkItem "001" "open" 2], none⟩ "999" "urgent" "t1"
    (by decide) (by decide) (by decide)

/-! ## The codec round-trip (claim C1) -/

/-- C1: decoding the encoded interchange text of any finite sequence of
work items yields the sequence back, field for field, order preserved;
the empty sequence encodes to empty text and empty text decodes to the
empty sequence. -/
theorem c1_roundtrip :
    (∀ items : List WorkItem, decode (encode items) = some items)
    ∧ encode [] = "" ∧ decode "" = some [] :=
  ⟨fun items => decodeChars_encodeChars items, rfl, rfl⟩

/-! ## Import on an empty or absent file (claim C5) -/

set_option maxRecDepth 100000

/-- C5 counterexample: the claim fails on both branches — an empty file
leaves a non-empty store untouched (not emptied), and an absent file is
an error, not a "nothing to import" report. -/
theorem c5_import_empty_counterexample :
    ¬ (∀ st : State,
        (st.file = none ∨ ∃ c, st.file = some c ∧ trimChars c.data = []) →
        ∃ st', runImport st = ImportOut.nothingToImport st' ∧ st'.store = []) := by
  intro h
  obtain ⟨st', h1, h2⟩ := h ⟨[mkItem "001" "open" 2], some ""⟩ (Or.inr ⟨"", rfl, rfl⟩)
  rw [show runImport ⟨[mkItem "001" "open" 2], some ""⟩
      = ImportOut.nothingToImport ⟨[mkItem "001" "open" 2], some ""⟩ from rfl] at h1
  injection h1 with h3
  rw [← h3] at h2
  simp at h2

/-- C5 (amended): an interchange file that is empty after trimming makes
`import` report "nothing to import" and leave the state untouched — a
success, not an error — while an absent file makes `import` fail. -/
theorem c5_import_empty_amended :
    (∀ (st : State) (c : String), st.file = some c → trimChars c.data = [] →
      runImport st = ImportOut.nothingToImport st)
    ∧ (∀ st : State, st.file = none → runImport st = ImportOut.noFile st)
    ∧ (∀ (st : State) (c nowTs : String), st.file = some c → trimChars c.data = [] →
      runCmd Cmd.imp st nowTs = .ok st) := by
  refine ⟨?_, ?_, ?_⟩
  · rintro ⟨store, file⟩ c hf ht
    simp only at hf
    subst hf
    simp [runImport, ht]
  · rintro ⟨store, file⟩ hf
    simp only at hf
    subst hf
    rfl
  · rintro ⟨store, file⟩ c nowTs hf ht
    simp only at hf
    subst hf
    simp [runCmd, runImport, ht]

/-- C5 witness: a non-empty store with an empty interchange file. -/
theorem c5_import_empty_amended_witness :
    (State.mk [mkItem "001" "open" 2] (some "")).file = some ""
    ∧ trimChars ("" : String).data = []
    ∧ runImport ⟨[mkItem "001" "open" 2], some ""⟩
      = ImportOut.nothingToImport ⟨[mkItem "001" "open" 2], some ""⟩ :=
  ⟨rfl, rfl, c5_import_empty_amended.1 ⟨[mkItem "001" "open" 2], some ""⟩ "" rfl rfl⟩

/-! ## Import atomicity (claim C9) -/

/-- A well-formed interchange record line with id 002. -/
def lineB : String :=
  "\x7b\"id\":\"002\",\"title\":\"b\",\"status\":\"open\",\"priority\":2,\"type\":\"task\",\"created\":\"tc\",\"updated\":\"tu\"\x7d"

/-- A second well-formed record line reusing id 002. -/
def lineB2 : String :=
  "\x7b\"id\":\"002\",\"title\":\"c\",\"status\":\"open\",\"priority\":1,\"type\":\"task\",\"created\":\"tc\",\"updated\":\"tu\"\x7d"

/-- An interchange file whose two records share the id 002. -/
def dupFile : String := lineB ++ "\n" ++ lineB2 ++ "\n"

/-- The work item record line `lineB` decodes to. -/
def itemB : WorkItem :=
  { id := "002", title := "b", status := "open", priority := 2, type := "task",
    created := "tc", updated := "tu", description := none, blocked_by := none,
    labels := none, closed_reason := none, log := none, author := none, assignee := none }

/-- C9 counterexample: importing a file whose two records share an id
fails *after* the table was cleared and partially refilled — the store
holds exactly the first record, not its prior contents. -/
theorem c9_import_atomicity_counterexample :
    ¬ (∀ (st st' : State),
        (runImport st = ImportOut.corrupt st' ∨ runImport st = ImportOut.insertFailed st') →
        st'.store = st.store) := by
  intro h
  have h1 : runImport ⟨[mkItem "001" "open" 2], some dupFile⟩
      = ImportOut.insertFailed ⟨[itemB], some dupFile⟩ := by rfl
  have h2 := h _ _ (Or.inr h1)
  exact absurd h2 (by decide)

theorem insertAll_failed (js : List Json) : ∀ (acc res : List WorkItem),
    insertAll acc js = (res, false) →
    ∃ js1 j js2, js = js1 ++ j :: js2 ∧ insertAll acc js1 = (res, true)
      ∧ insertOne res j = none := by
  induction js with
  | nil =>
    intro acc res h
    simp [insertAll] at h
  | cons j js ih =>
    intro acc res h
    simp only [insertAll] at h
    cases hio : insertOne acc j with
    | none =>
      rw [hio] at h
      have hacc : acc = res := congrArg Prod.fst h
      subst hacc
      exact ⟨[], j, js, rfl, rfl, hio⟩
    | some acc' =>
      rw [hio] at h
      obtain ⟨js1, j', js2, heq, hall, hone⟩ := ih acc' res h
      refine ⟨j :: js1, j', js2, by rw [heq]; rfl, ?_, hone⟩
      simp [insertAll, hio, hall]

/-- C9 (amended): a decode failure happens before the DELETE and leaves
the whole state untouched; but a failing insert (`import` runs without a
transaction) leaves the interchange file as it was while the store holds
exactly the successfully inserted prefix of the file's records, cut at
the first record whose insert fails. -/
theorem c9_import_atomicity_amended :
    (∀ (st st' : State), runImport st = ImportOut.corrupt st' → st' = st)
    ∧ (∀ (st st' : State), runImport st = ImportOut.insertFailed st' →
        st'.file = st.file
        ∧ ∃ content js1 j js2, st.file = some content
            ∧ decodeJsonLines content.data = some (js1 ++ j :: js2)
            ∧ insertAll [] js1 = (st'.store, true)
            ∧ insertOne st'.store j = none) := by
  constructor
  · rintro ⟨store, file⟩ st' h
    cases file with
    | none => simp [runImport] at h
    | some c =>
      by_cases ht : trimChars c.data = []
      · simp [runImport, ht] at h
      · simp only [runImport] at h
        rw [if_neg ht] at h
        cases hd : decodeJsonLines c.data with
        | none =>
          rw [hd] at h
          injection h with h1
          exact h1.symm
        | some js =>
          rw [hd] at h
          rcases hia : insertAll [] js with ⟨acc, flag⟩
          simp only [hia] at h
          cases flag with
          | false => simp at h
          | true => simp at h
  · rintro ⟨store, file⟩ st' h
    cases file with
    | none => simp [runImport] at h
    | some c =>
      by_cases ht : trimChars c.data = []
      · simp [runImport, ht] at h
      · simp only [runImport] at h
        rw [if_neg ht] at h
        cases hd : decodeJsonLines c.data with
        | none => rw [hd] at h; simp at h
        | some js =>
          rw [hd] at h
          rcases hia : insertAll [] js with ⟨acc, flag⟩
          simp only [hia] at h
          cases flag with
          | true => simp at h
          | false =>
            simp only [ImportOut.insertFailed.injEq] at h
            subst h
            obtain ⟨js1, j, js2, heq, hall, hone⟩ := insertAll_failed js [] acc hia
            exact ⟨rfl, c, js1, j, js2, rfl, by rw [hd, heq], hall, hone⟩

/-- C9 witness: the duplicate-id file, imported over a one-item store. -/
theorem c9_import_atomicity_amended_witness :
    runImport ⟨[mkItem "001" "open" 2], some dupFile⟩
      = ImportOut.insertFailed ⟨[itemB], some dupFile⟩
    ∧ ((State.mk [itemB] (some dupFile)).file
        = (State.mk [mkItem "001" "open" 2] (some dupFile)).file
      ∧ ∃ content js1 j js2,
          (State.mk [mkItem "001" "open" 2] (some dupFile)).file = some content
          ∧ decodeJsonLines content.data = some (js1 ++ j :: js2)
          ∧ insertAll [] js1 = ((State.mk [itemB] (some dupFile)).store, true)
          ∧ insertOne (State.mk [itemB] (some dupFile)).store j = none) :=
  ⟨rfl, c9_import_atomicity_amended.2 ⟨[mkItem "001" "open" 2], some dupFile⟩
      ⟨[itemB], some dupFile⟩ rfl⟩

/-! ## The consistency contract (claim C2) -/

/-- A state whose file is the fresh export of its store is consistent. -/
theorem consistent_mk (store' : List WorkItem) :
    Consistent ⟨store', some (exportFile store')⟩ :=
  ⟨exportFile store', rfl, decodeChars_encodeChars (sortById store')⟩

theorem sortById_idem (l : List WorkItem) : sortById (sortById l) = sortById l :=
  (List.sorted_insertionSort idLe l).insertionSort_eq

theorem normImport_id (i : WorkItem) (h : ValidItem i) : normImport i = i := by
  obtain ⟨h1, h2, h3, h4⟩ := h
  simp [normImport, normOpt_eq_of_ne _ h1, normOpt_eq_of_ne _ h2,
    normOpt_eq_of_ne _ h3, normOpt_eq_of_ne _ h4]

theorem addCmd_consistent (st st' : State) (t : String) (p : Int) (ty now : String)
    (h : addCmd st t p ty now = .ok st') : Consistent st' := by
  unfold addCmd at h
  split at h
  · simp at h
  · injection h with h1
    rw [← h1]
    exact consistent_mk _

theorem startCmd_consistent (st st' : State) (id now : String)
    (h : startCmd st id now = .ok st') : Consistent st' := by
  unfold startCmd at h
  split at h
  · simp at h
  · split at h
    · simp at h
    · injection h with h1
      rw [← h1]
      exact consistent_mk _

theorem closeCmd_consistent (st st' : State) (id : String) (r : Option String) (now : String)
    (h : closeCmd st id r now = .ok st') : Consistent st' := by
  unfold closeCmd at h
  split at h
  · simp at h
  · split at h
    · simp at h
    · injection h with h1
      rw [← h1]
      exact consistent_mk _

theorem reopenCmd_consistent (st st' : State) (id now : String)
    (h : reopenCmd st id now = .ok st') : Consistent st' := by
  unfold reopenCmd at h
  split at h
  · simp at h
  · split at h
    · simp at h
    · injection h with h1
      rw [← h1]
      exact consistent_mk _

theorem logCmd_consistent (st st' : State) (id m : String) (a : Option String) (now : String)
    (h : logCmd st id m a now = .ok st') : Consistent st' := by
  unfold logCmd at h
  split at h
  · simp at h
  · split at h
    · simp at h
    · injection h with h1
      rw [← h1]
      exact consistent_mk _

theorem editCmd_consistent (st st' : State) (id f v now : String)
    (h : editCmd st id f v now = .ok st') : Consistent st' := by
  unfold editCmd at h
  split at h
  · simp at h
  · split at h
    · simp at h
    · split at h
      · injection h with h1
        rw [← h1]
        exact consistent_mk _
      · simp at h

theorem blockCmd_ok_cases (st st' : State) (id b now : String)
    (h : blockCmd st id b now = .ok st') : st' = st ∨ Consistent st' := by
  simp only [blockCmd] at h
  split at h
  · simp at h
  · split at h
    · simp at h
    · split at h
      · simp at h
      · split at h
        · injection h with h1
          exact Or.inl h1.symm
        · injection h with h1
          exact Or.inr (by rw [← h1]; exact consistent_mk _)

theorem unblockCmd_ok_cases (st st' : State) (id b now : String)
    (h : unblockCmd st id b now = .ok st') : st' = st ∨ Consistent st' := by
  simp only [unblockCmd] at h
  split at h
  · simp at h
  · split at h
    · simp at h
    · split at h
      · injection h with h1
        exact Or.inl h1.symm
      · injection h with h1
        exact Or.inr (by rw [← h1]; exact consistent_mk _)

theorem insertAll_ok (js : List Json) : ∀ (acc res items : List WorkItem),
    insertAll acc js = (res, true) → mapOpt jsonToItem js = some items →
    res = acc ++ items.map normImport := by
  induction js with
  | nil =>
    intro acc res items h1 h2
    simp only [insertAll, Prod.mk.injEq] at h1
    simp only [mapOpt, Option.some.injEq] at h2
    rw [← h1.1, ← h2]
    simp
  | cons j js ih =>
    intro acc res items h1 h2
    simp only [mapOpt] at h2
    cases hji : jsonToItem j with
    | none => rw [hji] at h2; simp at h2
    | some it =>
      rw [hji] at h2
      cases hmo : mapOpt jsonToItem js with
      | none => rw [hmo] at h2; simp at h2
      | some rest =>
        rw [hmo] at h2
        simp only [Option.map_some', Option.some.injEq] at h2
        simp only [insertAll] at h1
        cases hio : insertOne acc j with
        | none => rw [hio] at h1; simp at h1
        | some acc' =>
          rw [hio] at h1
          simp only [insertOne, hji] at hio
          cases hdup : (acc.map fun x => x.id).contains it.id with
          | true => rw [hdup] at hio; simp at hio
          | false =>
            rw [hdup] at hio
            rw [if_neg (by simp)] at hio
            injection hio with hio2
            have := ih acc' res rest h1 hmo
            rw [this, ← hio2, ← h2]
            simp

theorem runImport_nothingToImport (st s : State)
    (h : runImport st = ImportOut.nothingToImport s) : s = st := by
  rcases st with ⟨store, file⟩
  cases file with
  | none => simp [runImport] at h
  | some c =>
    by_cases ht : trimChars c.data = []
    · simp only [runImport, ht, if_pos] at h
      injection h with h1
      exact h1.symm
    · simp only [runImport] at h
      rw [if_neg ht] at h
      cases hd : decodeJsonLines c.data with
      | none => rw [hd] at h; simp at h
      | some js =>
        rw [hd] at h
        rcases hia : insertAll [] js with ⟨acc, flag⟩
        simp only [hia] at h
        cases flag with
        | false => simp at h
        | true => simp at h

theorem runImport_imported (st s : State) (n : Nat)
    (h : runImport st = ImportOut.imported s n) :
    ∃ content js, st.file = some content
      ∧ decodeJsonLines content.data = some js
      ∧ insertAll [] js = (s.store, true)
      ∧ s.file = st.file := by
  rcases st with ⟨store, file⟩
  cases file with
  | none => simp [runImport] at h
  | some c =>
    by_cases ht : trimChars c.data = []
    · simp [runImport, ht] at h
    · simp only [runImport] at h
      rw [if_neg ht] at h
      cases hd : decodeJsonLines c.data with
      | none => rw [hd] at h; simp at h
      | some js =>
        rw [hd] at h
        rcases hia : insertAll [] js with ⟨acc, flag⟩
        simp only [hia] at h
        cases flag with
        | false => simp at h
        | true =>
          simp only [ImportOut.imported.injEq] at h
          obtain ⟨h1, h2⟩ := h
          exact ⟨c, js, rfl, hd, by rw [← h1]; exact hia, by rw [← h1]⟩

theorem import_ok_consistent (st st' : State) (now : String)
    (hcons : Consistent st) (hvalid : ∀ i ∈ st.store, ValidItem i)
    (h : runCmd Cmd.imp st now = .ok st') : Consistent st' := by
  simp only [runCmd] at h
  cases hri : runImport st with
  | noFile s => rw [hri] at h; simp at h
  | corrupt s => rw [hri] at h; simp at h
  | insertFailed s => rw [hri] at h; simp at h
  | nothingToImport s =>
    rw [hri] at h
    injection h with h1
    rw [← h1, runImport_nothingToImport st s hri]
    exact hcons
  | imported s n =>
    rw [hri] at h
    injection h with h1
    obtain ⟨content, js, hfile, hd, hia, hsf⟩ := runImport_imported st s n hri
    obtain ⟨content2, hfile2, hdec⟩ := hcons
    rw [hfile] at hfile2
    injection hfile2 with hceq
    subst hceq
    have hmo : mapOpt jsonToItem js = some (sortById st.store) := by
      have h' := hdec
      rw [decode, decodeChars, hd, Option.some_bind] at h'
      exact h'
    have hres : s.store = [] ++ (sortById st.store).map normImport :=
      insertAll_ok js [] s.store (sortById st.store) hia hmo
    have hmap : (sortById st.store).map normImport = sortById st.store := by
      rw [show (sortById st.store).map normImport = (sortById st.store).map id from
        List.map_congr_left fun a ha => normImport_id a
          (hvalid a ((List.perm_insertionSort idLe st.store).subset ha))]
      exact List.map_id _
    rw [← h1]
    refine ⟨content, by rw [hsf, hfile], ?_⟩
    rw [hdec, hres, List.nil_append, hmap, sortById_idem]

/-- A well-formed interchange record line with id 001, placed after the
id-002 line in `fileBA`. -/
def lineA : String :=
  "\x7b\"id\":\"001\",\"title\":\"a\",\"status\":\"open\",\"priority\":2,\"type\":\"task\",\"created\":\"tc\",\"updated\":\"tu\"\x7d"

/-- An interchange file whose records are not in ascending id order. -/
def fileBA : String := lineB ++ "\n" ++ lineA ++ "\n"

/-- The work item record line `lineA` decodes to. -/
def itemA : WorkItem :=
  { id := "001", title := "a", status := "open", priority := 2, type := "task",
    created := "tc", updated := "tu", description := none, blocked_by := none,
    labels := none, closed_reason := none, log := none, author := none, assignee := none }

/-- C2 counterexample: `import` succeeds on a file whose records are out
of id order and performs no export afterwards, so the file then disagrees
with the store's id-ordered listing — the contract does not hold after
every successful mutating command. -/
theorem c2_consistency_counterexample :
    ¬ (∀ (c : Cmd) (st st' : State) (nowTs : String),
        runCmd c st nowTs = .ok st' → Consistent st') := by
  intro h
  have h1 : runCmd Cmd.imp ⟨[], some fileBA⟩ "x" = .ok ⟨[itemB, itemA], some fileBA⟩ := by rfl
  obtain ⟨content, hc, hd⟩ := h Cmd.imp _ _ "x" h1
  injection hc with hc2
  rw [← hc2] at hd
  rw [show decode fileBA = some [itemB, itemA] from rfl] at hd
  exact absurd hd (by decide)

/-- C2 (amended): every exporting command (add, start, close, reopen,
edit, log) establishes the consistency contract outright; block and
unblock either leave the state untouched (their reported no-op paths) or
establish it; and import — which never exports — preserves it only when
the store it decodes was already consistently exported (in particular
the file's records are in ascending id order) and free of empty-string
optional fields. -/
theorem c2_consistency_amended :
    (∀ (st st' : State) (t : String) (p : Int) (ty now : String),
        addCmd st t p ty now = .ok st' → Consistent st')
    ∧ (∀ (st st' : State) (id now : String),
        startCmd st id now = .ok st' → Consistent st')
    ∧ (∀ (st st' : State) (id : String) (r : Option String) (now : String),
        closeCmd st id r now = .ok st' → Consistent st')
    ∧ (∀ (st st' : State) (id now : String),
        reopenCmd st id now = .ok st' → Consistent st')
    ∧ (∀ (st st' : State) (id f v now : String),
        editCmd st id f v now = .ok st' → Consistent st')
    ∧ (∀ (st st' : State) (id m : String) (a : Option String) (now : String),
        logCmd st id m a now = .ok st' → Consistent st')
    ∧ (∀ (st st' : State) (id b now : String),
        blockCmd st id b now = .ok st' → st' = st ∨ Consistent st')
    ∧ (∀ (st st' : State) (id b now : String),
        unblockCmd st id b now = .ok st' → st' = st ∨ Consistent st')
    ∧ (∀ (st st' : State) (now : String), Consistent st → (∀ i ∈ st.store, ValidItem i) →
        runCmd Cmd.imp st now = .ok st' → Consistent st') :=
  ⟨addCmd_consistent, startCmd_consistent, closeCmd_consistent, reopenCmd_consistent,
   editCmd_consistent, logCmd_consistent, blockCmd_ok_cases, unblockCmd_ok_cases,
   import_ok_consistent⟩

/-- The state one `add` on the empty store reaches. -/
def itemW : WorkItem :=
  { id := "001", title := "t", status := "open", priority := 2, type := "task",
    created := "tc", updated := "tc", description := none, blocked_by := none,
    labels := none, closed_reason := none, log := none, author := none, assignee := none }

/-- C2 witness: one `add` on the empty store, which exports and lands in
a consistent state. -/
theorem c2_consistency_amended_witness :
    addCmd ⟨[], none⟩ "t" 2 "task" "tc" = .ok ⟨[itemW], some (exportFile [itemW])⟩
    ∧ Consistent ⟨[itemW], some (exportFile [itemW])⟩ :=
  ⟨rfl, c2_consistency_amended.1 ⟨[], none⟩ ⟨[itemW], some (exportFile [itemW])⟩
    "t" 2 "task" "tc" rfl⟩
